import Mathlib

/-!
# Verification of the `ecs_wasm_game5` WebSocket relay server

Shallow embedding of `src/server/ws_server.js` (the latest of the three
versions concatenated in that file, lines 260-492): the mutable
`gameState` object, the `clients` set, the connection handler and the
`ws.on('message')` switch are modelled as pure functions over an explicit
`ServerState`.  Sends (`ws.send`, `broadcast`) are modelled as an output
list of `(client id, message)` pairs produced by each handler.

JavaScript numbers reaching the server through the protocol (entity ids,
stack indexes, stack positions, pixel coordinates) are modelled as `Int`;
the card objects the server stores and forwards are modelled by the typed
record `Card` following the fields the server reads
(`card.entity.id`, `card.suit`, `card.rank`, `card.is_face_up`,
`card.stack_type`, `card.stack_index`, `card.position_in_stack`) plus the
`position` field carried on the wire.
-/

namespace WsServer

/-- The string constant `'Tableau'` compared against `card.stack_type`
(ws_server.js line 412). -/
def tableauStr : String := "Tableau"

/-- Prefix of the server-assigned player name (ws_server.js line 278). -/
def playerNameStr : String := "Player "

/-- Rust-side `Entity` is `{ id: usize }`; the server reads
`card.entity.id` (ws_server.js line 367). -/
structure Entity where
  id : Int
  deriving DecidableEq

/-- The `position: { x, y }` object carried on each card on the wire
(`PositionData` in the client protocol).  The server never reads it, only
stores and forwards it. -/
structure PositionData where
  x : Int
  y : Int
  deriving DecidableEq

/-- A card object as stored in `gameState.cards` (ws_server.js lines
268-273 and the fields read in the `MakeMove` case, lines 356-434). -/
structure Card where
  entity : Entity
  suit : String
  rank : String
  is_face_up : Bool
  stack_type : String
  stack_index : Option Int
  position_in_stack : Int
  position : PositionData
  deriving DecidableEq

/-- A player record `{ id, name }` as stored in `gameState.players`
(ws_server.js line 279). -/
structure Player where
  id : Int
  name : String
  deriving DecidableEq

/-- The `target_stack` part of a `MakeMove` payload (ws_server.js lines
357, 384-385): `stack_type` and a nullable `stack_index`. -/
structure TargetStack where
  stack_type : String
  stack_index : Option Int
  deriving DecidableEq

/-- One entry of the `clients` set: the socket is identified by the
`playerId` attached to it at connection time (ws_server.js line 282) and
carries its `readyState === WebSocket.OPEN` test as a boolean. -/
structure Client where
  cid : Int
  isOpen : Bool
  deriving DecidableEq

/-- The server's whole mutable state: `gameState.players` (a JS object
keyed by numeric `playerId`, whose `Object.values` enumeration order is
ascending key order, here represented as a list kept in insertion = id
order), `gameState.cards`, the `clients` set and the `nextPlayerId`
counter (ws_server.js lines 265-273). -/
structure ServerState where
  players : List Player
  cards : List Card
  clients : List Client
  nextPlayerId : Int
  deriving DecidableEq

/-- State at server start: no players, empty card list, no clients,
`nextPlayerId = 1` (ws_server.js lines 265-273). -/
def initialState : ServerState :=
  { players := [], cards := [], clients := [], nextPlayerId := 1 }

/-- Inbound messages of the `ws.on('message')` switch (ws_server.js line
333).  `joinGame` is included because the protocol defines it, but the
latest server version has no case for it: it falls through to the
`default` branch. -/
inductive ClientMessage where
  | provideInitialState (cards : List Card)
  | makeMove (moved_entity : Entity) (target_stack : TargetStack)
  | requestGameState
  | ping
  | joinGame (player_name : String)
  deriving DecidableEq

/-- Outbound messages built by the server (ws_server.js lines 286-297,
302-305, 318-321, 439-447, 455, 480-488). -/
inductive ServerMessage where
  | gameJoined (playerId : Int) (players : List Player) (cards : List Card)
  | playerJoined (player : Player)
  | playerLeft (playerId : Int)
  | gameStateUpdate (players : List Player) (cards : List Card)
  | pong
  deriving DecidableEq

/-- The `broadcast(message, sender)` helper (ws_server.js lines 469-475):
send to every client of the set that is not `sender` and whose
`readyState` is `OPEN`.  `sender = none` models the call with the second
argument left `undefined`. -/
def broadcast (clients : List Client) (msg : ServerMessage)
    (sender : Option Int) : List (Int × ServerMessage) :=
  clients.filterMap fun c =>
    if some c.cid ≠ sender ∧ c.isOpen then some (c.cid, msg) else none

/-- The `broadcastGameStateUpdate()` helper (ws_server.js lines 478-490):
broadcast a `GameStateUpdate` carrying the full player and card lists to
everyone, with no sender exclusion. -/
def broadcastGameStateUpdate (s : ServerState) : List (Int × ServerMessage) :=
  broadcast s.clients (.gameStateUpdate s.players s.cards) none

/-- JavaScript `Array.prototype.findIndex` fused with the subsequent
element access: first index (and element) satisfying `p`, scanning left
to right (ws_server.js lines 367, 415). -/
def findIndexCard (p : Card → Prop) [DecidablePred p] :
    List Card → Option (Nat × Card)
  | [] => none
  | c :: tl =>
      if p c then some (0, c)
      else (findIndexCard p tl).map fun q => (q.1 + 1, q.2)

/-- The `maxPosInTarget` computation (ws_server.js lines 388-399): fold
over all cards starting from `-1`, taking the largest `position_in_stack`
among cards other than the moved one (compared by entity id) lying in the
target stack (`stack_type` and `stack_index` both equal, `null` matching
`null`). -/
def maxPosInTarget (cards : List Card) (movedId : Int) (t : String)
    (ti : Option Int) : Int :=
  cards.foldl
    (fun acc c =>
      if c.entity.id ≠ movedId ∧ c.stack_type = t ∧ c.stack_index = ti then
        if c.position_in_stack > acc then c.position_in_stack else acc
      else acc)
    (-1)

/-- Predicate of the reveal-search `findIndex` (ws_server.js lines
415-419): same stack type and index as the moved card's old pile, at
position `positionToReveal`. -/
def revealPred (t : String) (ti : Option Int) (p : Int) (c : Card) : Prop :=
  c.stack_type = t ∧ c.stack_index = ti ∧ c.position_in_stack = p

instance (t : String) (ti : Option Int) (p : Int) :
    DecidablePred (revealPred t ti p) := fun c => by
  unfold revealPred; infer_instance

/-- Step 4 of the `MakeMove` case (ws_server.js lines 411-430): if the
moved card came from a Tableau pile at a position above 0, find the first
card now lying in that pile at `oldPositionInStack - 1` and, if it is
face down, turn it face up. -/
def revealCards (cards : List Card) (oldT : String) (oldI : Option Int)
    (oldPos : Int) : List Card :=
  if oldT = tableauStr ∧ oldPos > 0 then
    match findIndexCard (revealPred oldT oldI (oldPos - 1)) cards with
    | none => cards
    | some (j, c) =>
        if c.is_face_up then cards
        else cards.set j { c with is_face_up := true }
  else cards

/-- Steps 1-4 of the `MakeMove` case (ws_server.js lines 366-430): find
the moved card by entity id (`none` models the `movedCardIndex === -1`
early `break`), compute the new `position_in_stack` from
`maxPosInTarget + 1`, overwrite the moved card's stack fields in place,
then run the reveal step on the updated list using the moved card's old
stack fields. -/
def processMakeMove (cards : List Card) (me : Entity) (ts : TargetStack) :
    Option (List Card) :=
  match findIndexCard (fun c => c.entity.id = me.id) cards with
  | none => none
  | some (i, movedCard) =>
      let newPositionInStack :=
        maxPosInTarget cards movedCard.entity.id ts.stack_type ts.stack_index + 1
      let cards1 := cards.set i
        { movedCard with
            stack_type := ts.stack_type
            stack_index := ts.stack_index
            position_in_stack := newPositionInStack }
      some (revealCards cards1 movedCard.stack_type movedCard.stack_index
        movedCard.position_in_stack)

/-- The `ws.on('message')` switch (ws_server.js lines 326-465) for a
message arriving from the connection whose `playerId` is `sender`.
Returns the new state and the list of sends performed.  The
`ProvideInitialState` payload-shape test and the `MakeMove`
payload-field test always pass for typed messages; `JoinGame` has no
case in this version and lands in `default`, which only logs. -/
def handleMessage (s : ServerState) (sender : Int) (m : ClientMessage) :
    ServerState × List (Int × ServerMessage) :=
  match m with
  | .provideInitialState cs =>
      if s.cards.length = 0 then
        let s2 := { s with cards := cs }
        (s2, broadcastGameStateUpdate s2)
      else (s, [])
  | .makeMove me ts =>
      match processMakeMove s.cards me ts with
      | none => (s, [])
      | some cards2 =>
          let s2 := { s with cards := cards2 }
          (s2, broadcastGameStateUpdate s2)
  | .requestGameState => (s, [(sender, .gameStateUpdate s.players s.cards)])
  | .ping => (s, [(sender, .pong)])
  | .joinGame _ => (s, [])

/-- The `wss.on('connection')` handler (ws_server.js lines 276-307):
assign `nextPlayerId` and bump the counter, store the player, add the
socket to `clients`, send `GameJoined` (current player list including the
new player, current cards) to the new socket, and broadcast
`PlayerJoined` to everyone else.  Returns (new state, assigned id,
sends). -/
def handleConnect (s : ServerState) : ServerState × Int × List (Int × ServerMessage) :=
  let playerId := s.nextPlayerId
  let player : Player := { id := playerId, name := playerNameStr ++ toString playerId }
  let players2 := s.players ++ [player]
  let clients2 := s.clients ++ [{ cid := playerId, isOpen := true }]
  let s2 : ServerState :=
    { players := players2, cards := s.cards, clients := clients2
      nextPlayerId := playerId + 1 }
  (s2, playerId,
    (playerId, ServerMessage.gameJoined playerId players2 s.cards)
      :: broadcast clients2 (.playerJoined player) (some playerId))

/-- The `ws.on('close')` handler (ws_server.js lines 310-323): delete the
player, delete the socket from `clients`, broadcast `PlayerLeft` to the
remaining clients with no sender exclusion. -/
def handleDisconnect (s : ServerState) (pid : Int) :
    ServerState × List (Int × ServerMessage) :=
  let players2 := s.players.filter fun p => p.id ≠ pid
  let clients2 := s.clients.filter fun c => c.cid ≠ pid
  let s2 := { s with players := players2, clients := clients2 }
  (s2, broadcast clients2 (.playerLeft pid) none)

/-- External events driving the server process: a new connection, the
close of the connection holding `pid`, or a message from it. -/
inductive Event where
  | connect
  | disconnect (pid : Int)
  | message (pid : Int) (m : ClientMessage)

/-- State reached after one event. -/
def stepEvent (s : ServerState) (e : Event) : ServerState :=
  match e with
  | .connect => (handleConnect s).1
  | .disconnect pid => (handleDisconnect s pid).1
  | .message pid m => (handleMessage s pid m).1

/-- State reached after a list of events. -/
def runEvents (s : ServerState) : List Event → ServerState
  | [] => s
  | e :: tl => runEvents (stepEvent s e) tl

/-- Player ids handed out by `connection` events along an event trace,
in order of assignment. -/
def assignedIds (s : ServerState) : List Event → List Int
  | [] => []
  | e :: tl =>
      (match e with
        | .connect => [s.nextPlayerId]
        | _ => []) ++ assignedIds (stepEvent s e) tl

/-- Number of `connect` events in a trace. -/
def countConnects : List Event → Nat
  | [] => 0
  | .connect :: tl => countConnects tl + 1
  | _ :: tl => countConnects tl

/-! ## Helper lemmas about the embedded primitives -/

/-- With no sender to exclude, `broadcast` sends to exactly the open
clients, in set order. -/
theorem broadcast_none (clients : List Client) (msg : ServerMessage) :
    broadcast clients msg none =
      (clients.filter fun c => c.isOpen).map fun c => (c.cid, msg) := by
  induction clients with
  | nil => rfl
  | cons c tl ih =>
      by_cases hc : c.isOpen <;>
        simp [broadcast, List.filterMap_cons, hc, ih, List.filter_cons] at ih ⊢ <;>
        simpa [broadcast] using ih

/-- `findIndexCard` finds nothing exactly when no element satisfies the
predicate. -/
theorem findIndexCard_eq_none_iff (p : Card → Prop) [DecidablePred p]
    (l : List Card) :
    findIndexCard p l = none ↔ ∀ c ∈ l, ¬ p c := by
  induction l with
  | nil => simp [findIndexCard]
  | cons c tl ih =>
      by_cases hc : p c <;> simp [findIndexCard, hc, ih]

/-- A `findIndexCard` hit returns a valid index together with the element
stored there, and that element satisfies the predicate. -/
theorem findIndexCard_eq_some (p : Card → Prop) [DecidablePred p]
    (l : List Card) (i : Nat) (c : Card)
    (h : findIndexCard p l = some (i, c)) :
    l[i]? = some c ∧ p c := by
  induction l generalizing i with
  | nil => simp [findIndexCard] at h
  | cons d tl ih =>
      by_cases hd : p d
      · simp [findIndexCard, hd] at h
        obtain ⟨hi, hc⟩ := h
        subst hi; subst hc
        simpa using hd
      · rw [findIndexCard, if_neg hd, Option.map_eq_some'] at h
        obtain ⟨⟨q1, q2⟩, hq, hqe⟩ := h
        simp only [Prod.mk.injEq] at hqe
        obtain ⟨hqi, hqc⟩ := hqe
        subst hqc
        have hmain := ih q1 hq
        cases i with
        | zero => omega
        | succ k =>
            have hk : q1 = k := by omega
            rw [hk] at hmain
            simpa using hmain

/-- `findIndexCard` returns the first hit: everything strictly before the
returned index fails the predicate. -/
theorem findIndexCard_first (p : Card → Prop) [DecidablePred p]
    (l : List Card) (i : Nat) (c : Card)
    (h : findIndexCard p l = some (i, c)) :
    ∀ k, k < i → ∀ c', l[k]? = some c' → ¬ p c' := by
  induction l generalizing i with
  | nil => simp [findIndexCard] at h
  | cons d tl ih =>
      by_cases hd : p d
      · simp [findIndexCard, hd] at h
        intro k hk
        omega
      · rw [findIndexCard, if_neg hd, Option.map_eq_some'] at h
        obtain ⟨⟨q1, q2⟩, hq, hqe⟩ := h
        simp only [Prod.mk.injEq] at hqe
        obtain ⟨hqi, hqc⟩ := hqe
        subst hqc
        intro k hk c' hc' hp
        cases k with
        | zero =>
            simp at hc'
            exact hd (hc' ▸ hp)
        | succ k' =>
            have hk' : k' < q1 := by omega
            exact ih q1 hq k' hk' c' (by simpa using hc') hp

/-- Cards other than the moved one (compared by entity id, as the code
does) currently lying in the target stack: the population the
`maxPosInTarget` loop ranges over (ws_server.js lines 389-399). -/
def othersInTarget (cards : List Card) (movedId : Int) (t : String)
    (ti : Option Int) : List Card :=
  cards.filter fun c =>
    c.entity.id ≠ movedId ∧ c.stack_type = t ∧ c.stack_index = ti

/-- The `maxPosInTarget` fold over all cards equals the plain
running-maximum fold over just the cards of the target stack. -/
theorem maxPosInTarget_eq_foldl_filter (cards : List Card) (movedId : Int)
    (t : String) (ti : Option Int) :
    maxPosInTarget cards movedId t ti =
      (othersInTarget cards movedId t ti).foldl
        (fun acc c =>
          if c.position_in_stack > acc then c.position_in_stack else acc)
        (-1) := by
  unfold maxPosInTarget othersInTarget
  generalize (-1 : Int) = a
  induction cards generalizing a with
  | nil => rfl
  | cons c tl ih =>
      by_cases hc : c.entity.id ≠ movedId ∧ c.stack_type = t ∧ c.stack_index = ti <;>
        simp [List.filter_cons, hc, ih]

/-- Specification of the running-maximum fold: the result dominates the
seed and every element, and is either the seed or one of the elements. -/
theorem foldl_runningMax_spec (xs : List Int) (a : Int) :
    a ≤ xs.foldl (fun acc x => if x > acc then x else acc) a ∧
      (∀ x ∈ xs, x ≤ xs.foldl (fun acc x => if x > acc then x else acc) a) ∧
      (xs.foldl (fun acc x => if x > acc then x else acc) a = a ∨
        xs.foldl (fun acc x => if x > acc then x else acc) a ∈ xs) := by
  induction xs generalizing a with
  | nil => simp
  | cons x tl ih =>
      obtain ⟨h1, h2, h3⟩ := ih (if x > a then x else a)
      refine ⟨?_, ?_, ?_⟩
      · refine le_trans ?_ h1
        split <;> omega
      · intro y hy
        rcases List.mem_cons.1 hy with hy | hy
        · subst hy
          refine le_trans ?_ h1
          split <;> omega
        · exact h2 y hy
      · rcases h3 with h3 | h3
        · by_cases hx : x > a
          · right
            rw [List.foldl_cons, h3, if_pos hx]
            exact List.mem_cons_self x tl
          · left
            rw [List.foldl_cons, h3, if_neg hx]
        · right
          rw [List.foldl_cons]
          exact List.mem_cons_of_mem x h3

/-- The reveal step only ever touches the `is_face_up` flag, and only
from `false` to `true`: every slot of the list keeps its entity, suit,
rank, stack placement and position. -/
theorem revealCards_getElem? (cards : List Card) (oldT : String)
    (oldI : Option Int) (oldPos : Int) (k : Nat) (c : Card)
    (hk : cards[k]? = some c) :
    ∃ c', (revealCards cards oldT oldI oldPos)[k]? = some c' ∧
      c'.entity = c.entity ∧ c'.suit = c.suit ∧ c'.rank = c.rank ∧
      c'.stack_type = c.stack_type ∧ c'.stack_index = c.stack_index ∧
      c'.position_in_stack = c.position_in_stack ∧
      c'.position = c.position ∧
      (c'.is_face_up = c.is_face_up ∨
        (c.is_face_up = false ∧ c'.is_face_up = true)) := by
  unfold revealCards
  split
  · rcases hfind : findIndexCard (revealPred oldT oldI (oldPos - 1)) cards with
      _ | ⟨j, d⟩
    · exact ⟨c, hk, rfl, rfl, rfl, rfl, rfl, rfl, rfl, Or.inl rfl⟩
    · by_cases hface : d.is_face_up
      · simp only [hfind, hface, if_true]
        exact ⟨c, hk, rfl, rfl, rfl, rfl, rfl, rfl, rfl, Or.inl rfl⟩
      · simp only [hfind]
        rw [if_neg hface]
        by_cases hjk : j = k
        · subst hjk
          have hd : cards[j]? = some d := (findIndexCard_eq_some _ _ _ _ hfind).1
          have hcd : c = d := by
            rw [hk] at hd
            exact Option.some_inj.1 hd
          subst hcd
          have hlen : j < cards.length := by
            rcases List.getElem?_eq_some.1 hk with ⟨h, _⟩
            exact h
          refine ⟨{ c with is_face_up := true },
            List.getElem?_set_eq_of_lt _ hlen, rfl, rfl, rfl, rfl, rfl, rfl, rfl, ?_⟩
          right
          exact ⟨by simpa using hface, rfl⟩
        · refine ⟨c, ?_, rfl, rfl, rfl, rfl, rfl, rfl, rfl, Or.inl rfl⟩
          rw [List.getElem?_set_ne hjk]
          exact hk
  · exact ⟨c, hk, rfl, rfl, rfl, rfl, rfl, rfl, rfl, Or.inl rfl⟩

/-- Exhaustive description of the reveal step: either it returns the list
unchanged, or the guard held, the search hit a face-down card `d` at
index `j`, and exactly that slot is overwritten with `d` turned face
up. -/
theorem revealCards_cases (cards : List Card) (oldT : String)
    (oldI : Option Int) (oldPos : Int) :
    revealCards cards oldT oldI oldPos = cards ∨
      (∃ j d,
        findIndexCard (revealPred oldT oldI (oldPos - 1)) cards = some (j, d) ∧
        oldT = tableauStr ∧ oldPos > 0 ∧ d.is_face_up = false ∧
        revealCards cards oldT oldI oldPos =
          cards.set j { d with is_face_up := true }) := by
  unfold revealCards
  split
  · rename_i hguard
    rcases hfind : findIndexCard (revealPred oldT oldI (oldPos - 1)) cards with
      _ | ⟨j, d⟩
    · left; simp [hfind]
    · by_cases hface : d.is_face_up
      · left; simp [hfind, hface]
      · right
        refine ⟨j, d, ?_, hguard.1, hguard.2, by simpa using hface, ?_⟩
        · rfl
        · simp [hfind, hface]
  · left; rfl

/-! ## Claim theorems -/

/-- C10: for every inbound `Ping`, whatever the current game state, the
server replies `Pong` to the sending connection only and changes nothing
(ws_server.js lines 452-456). -/
theorem ping_replies_pong_only (s : ServerState) (sender : Int) :
    handleMessage s sender .ping = (s, [(sender, .pong)]) := rfl

/-- C3: a `MakeMove` whose `moved_entity.id` matches no stored card is
silently dropped: state unchanged, no broadcast, no reply (ws_server.js
lines 369-373). -/
theorem makeMove_unknown_entity_silently_dropped (s : ServerState)
    (sender : Int) (me : Entity) (ts : TargetStack)
    (h : ∀ c ∈ s.cards, c.entity.id ≠ me.id) :
    handleMessage s sender (.makeMove me ts) = (s, []) := by
  have hfind : findIndexCard (fun c => c.entity.id = me.id) s.cards = none :=
    (findIndexCard_eq_none_iff _ _).2 h
  simp [handleMessage, processMakeMove, hfind]

/-- Witness for C3 at a concrete input: one stored card with entity id 5,
a move for entity id 7. -/
theorem makeMove_unknown_entity_silently_dropped_witness :
    handleMessage
      { players := [{ id := 1, name := playerNameStr }]
        cards := [{ entity := { id := 5 }, suit := tableauStr, rank := tableauStr
                    is_face_up := false, stack_type := tableauStr
                    stack_index := some 0, position_in_stack := 0
                    position := { x := 0, y := 0 } }]
        clients := [{ cid := 1, isOpen := true }]
        nextPlayerId := 2 }
      1 (.makeMove { id := 7 } { stack_type := tableauStr, stack_index := some 1 })
      = ({ players := [{ id := 1, name := playerNameStr }]
           cards := [{ entity := { id := 5 }, suit := tableauStr, rank := tableauStr
                       is_face_up := false, stack_type := tableauStr
                       stack_index := some 0, position_in_stack := 0
                       position := { x := 0, y := 0 } }]
           clients := [{ cid := 1, isOpen := true }]
           nextPlayerId := 2 }, []) := by
  apply makeMove_unknown_entity_silently_dropped
  decide

/-- C4: a `ProvideInitialState` is accepted exactly when the server's
card list is empty; acceptance replaces the card list with the submitted
cards and broadcasts a `GameStateUpdate` to every open client, rejection
leaves the state untouched and sends nothing (ws_server.js lines
335-354). -/
theorem provideInitialState_accepted_iff_cards_empty (s : ServerState)
    (sender : Int) (cs : List Card) :
    handleMessage s sender (.provideInitialState cs) =
      if s.cards = [] then
        ({ s with cards := cs },
          (s.clients.filter fun c => c.isOpen).map
            fun c => (c.cid, ServerMessage.gameStateUpdate s.players cs))
      else (s, []) := by
  by_cases h : s.cards = []
  · simp [handleMessage, h, broadcastGameStateUpdate, broadcast_none]
  · have hlen : s.cards.length ≠ 0 := by
      simpa [List.length_eq_zero] using h
    simp [handleMessage, h, hlen]

/-- C1: a `MakeMove` whose entity is found sets the moved card's
`stack_type` and `stack_index` to the target's, and its
`position_in_stack` to one plus the maximum `position_in_stack` among
the other cards already in the target stack, or to 0 when the target
stack holds no other card (ws_server.js lines 383-409).  The
`maxPosInTarget` loop seeds its maximum with `-1`, so the stated
max-plus-one reading needs every stored position to be nonnegative —
which the data model guarantees, positions being pile depths counted
from 0. -/
theorem makeMove_sets_target_stack_and_position (s : ServerState)
    (sender : Int) (me : Entity) (ts : TargetStack) (i : Nat) (mc : Card)
    (h : findIndexCard (fun c => c.entity.id = me.id) s.cards = some (i, mc))
    (hpos : ∀ c ∈ s.cards, 0 ≤ c.position_in_stack) :
    ∃ mc',
      (handleMessage s sender (.makeMove me ts)).1.cards[i]? = some mc' ∧
      mc'.stack_type = ts.stack_type ∧
      mc'.stack_index = ts.stack_index ∧
      (othersInTarget s.cards mc.entity.id ts.stack_type ts.stack_index = [] →
        mc'.position_in_stack = 0) ∧
      (othersInTarget s.cards mc.entity.id ts.stack_type ts.stack_index ≠ [] →
        ∃ m, m ∈ (othersInTarget s.cards mc.entity.id ts.stack_type
                ts.stack_index).map (fun c => c.position_in_stack) ∧
          (∀ x ∈ (othersInTarget s.cards mc.entity.id ts.stack_type
              ts.stack_index).map (fun c => c.position_in_stack), x ≤ m) ∧
          mc'.position_in_stack = m + 1) := by
  obtain ⟨hgeti, -⟩ := findIndexCard_eq_some _ _ _ _ h
  have hlen : i < s.cards.length := by
    rcases List.getElem?_eq_some.1 hgeti with ⟨hl, -⟩
    exact hl
  have hset :
      (s.cards.set i
        { mc with
            stack_type := ts.stack_type
            stack_index := ts.stack_index
            position_in_stack :=
              maxPosInTarget s.cards mc.entity.id ts.stack_type
                ts.stack_index + 1 })[i]? =
      some
        { mc with
            stack_type := ts.stack_type
            stack_index := ts.stack_index
            position_in_stack :=
              maxPosInTarget s.cards mc.entity.id ts.stack_type
                ts.stack_index + 1 } :=
    List.getElem?_set_eq_of_lt _ hlen
  obtain ⟨mc', hmc', he, hsu, hra, hst, hsi, hpi, hpo, -⟩ :=
    revealCards_getElem? _ mc.stack_type mc.stack_index mc.position_in_stack
      i _ hset
  refine ⟨mc', ?_, by simpa using hst, by simpa using hsi, ?_, ?_⟩
  · simp only [handleMessage, processMakeMove, h]
    exact hmc'
  · intro hempty
    rw [hpi]
    simp only [maxPosInTarget_eq_foldl_filter, othersInTarget] at *
    rw [hempty]
    simp
  · intro hne
    have hfold := maxPosInTarget_eq_foldl_filter s.cards mc.entity.id
      ts.stack_type ts.stack_index
    have hmap :
        (othersInTarget s.cards mc.entity.id ts.stack_type ts.stack_index).foldl
            (fun acc c =>
              if c.position_in_stack > acc then c.position_in_stack else acc)
            (-1) =
          ((othersInTarget s.cards mc.entity.id ts.stack_type
              ts.stack_index).map (fun c => c.position_in_stack)).foldl
            (fun acc x => if x > acc then x else acc) (-1) := by
      rw [List.foldl_map]
    obtain ⟨-, hub, hcase⟩ := foldl_runningMax_spec
      ((othersInTarget s.cards mc.entity.id ts.stack_type
        ts.stack_index).map (fun c => c.position_in_stack)) (-1)
    have hM : mc'.position_in_stack =
        ((othersInTarget s.cards mc.entity.id ts.stack_type
            ts.stack_index).map (fun c => c.position_in_stack)).foldl
          (fun acc x => if x > acc then x else acc) (-1) + 1 := by
      rw [hpi]
      simp only [hfold, hmap]
    rcases hcase with hc | hc
    · exfalso
      obtain ⟨c0, hc0⟩ := List.exists_mem_of_ne_nil _ hne
      have hx0 : c0.position_in_stack ∈
          (othersInTarget s.cards mc.entity.id ts.stack_type
            ts.stack_index).map (fun c => c.position_in_stack) :=
        List.mem_map_of_mem _ hc0
      have h1 := hub _ hx0
      have h2 : 0 ≤ c0.position_in_stack :=
        hpos c0 (List.mem_filter.1 hc0).1
      omega
    · exact ⟨_, hc, hub, hM⟩

/-- Sample cards for the C1 witness: two cards stacked on Tableau pile 0
and one card in another pile. -/
def c1CardA : Card :=
  { entity := { id := 3 }, suit := tableauStr, rank := tableauStr
    is_face_up := false, stack_type := tableauStr, stack_index := some 0
    position_in_stack := 0, position := { x := 0, y := 0 } }

/-- Second Tableau card of the C1 witness, at position 1. -/
def c1CardB : Card :=
  { entity := { id := 4 }, suit := tableauStr, rank := tableauStr
    is_face_up := true, stack_type := tableauStr, stack_index := some 0
    position_in_stack := 1, position := { x := 0, y := 0 } }

/-- The card moved in the C1 witness, initially outside Tableau pile 0. -/
def c1CardC : Card :=
  { entity := { id := 5 }, suit := tableauStr, rank := tableauStr
    is_face_up := true, stack_type := playerNameStr, stack_index := none
    position_in_stack := 0, position := { x := 0, y := 0 } }

/-- Server state of the C1 witness. -/
def c1State : ServerState :=
  { players := [], cards := [c1CardA, c1CardB, c1CardC]
    clients := [{ cid := 1, isOpen := true }], nextPlayerId := 2 }

/-- Witness for C1: card 5 moved onto Tableau pile 0, which holds two
other cards at positions 0 and 1; the moved card ends at position 2. -/
theorem makeMove_sets_target_stack_and_position_witness :
    (findIndexCard (fun c => c.entity.id = (5 : Int)) c1State.cards =
      some (2, c1CardC)) ∧
    (∃ mc',
      (handleMessage c1State 1 (.makeMove { id := 5 }
          { stack_type := tableauStr, stack_index := some 0 })).1.cards[2]? =
        some mc' ∧
      mc'.stack_type = tableauStr ∧
      mc'.stack_index = some 0 ∧
      (othersInTarget c1State.cards c1CardC.entity.id tableauStr (some 0) = [] →
        mc'.position_in_stack = 0) ∧
      (othersInTarget c1State.cards c1CardC.entity.id tableauStr (some 0) ≠ [] →
        ∃ m, m ∈ (othersInTarget c1State.cards c1CardC.entity.id tableauStr
              (some 0)).map (fun c => c.position_in_stack) ∧
          (∀ x ∈ (othersInTarget c1State.cards c1CardC.entity.id tableauStr
              (some 0)).map (fun c => c.position_in_stack), x ≤ m) ∧
          mc'.position_in_stack = m + 1)) :=
  ⟨by decide,
    makeMove_sets_target_stack_and_position c1State 1 { id := 5 }
      { stack_type := tableauStr, stack_index := some 0 } 2 c1CardC (by decide)
      (by decide)⟩

/-- C6 (amended): provided the target stack differs from the moved
card's old pile, a found `MakeMove` changes at most the moved card's
`stack_type`, `stack_index` and `position_in_stack`, plus the
`is_face_up` flag — only from `false` to `true` — of at most one other
card, and any card so flipped sat in the moved card's old Tableau pile at
exactly one position beneath the moved card's old position.  Entity,
suit, rank and pixel position of every slot, the card count and the
player list are untouched (ws_server.js lines 356-434).  The proviso is
forced: on a same-pile move the reveal search can find the moved card
itself at its new position and flip it (see the counterexample). -/
theorem makeMove_frame_effect (s : ServerState) (sender : Int) (me : Entity)
    (ts : TargetStack) (i : Nat) (mc : Card)
    (h : findIndexCard (fun c => c.entity.id = me.id) s.cards = some (i, mc))
    (hdiff : ¬(ts.stack_type = mc.stack_type ∧ ts.stack_index = mc.stack_index)) :
    (handleMessage s sender (.makeMove me ts)).1.players = s.players ∧
    (handleMessage s sender (.makeMove me ts)).1.cards.length = s.cards.length ∧
    (∀ (k : Nat) (c c' : Card), s.cards[k]? = some c →
      (handleMessage s sender (.makeMove me ts)).1.cards[k]? = some c' →
      c'.entity = c.entity ∧ c'.suit = c.suit ∧ c'.rank = c.rank ∧
      c'.position = c.position ∧
      (k ≠ i → c'.stack_type = c.stack_type ∧ c'.stack_index = c.stack_index ∧
        c'.position_in_stack = c.position_in_stack) ∧
      (c'.is_face_up ≠ c.is_face_up →
        c.is_face_up = false ∧ c'.is_face_up = true ∧ k ≠ i ∧
        mc.stack_type = tableauStr ∧ mc.position_in_stack > 0 ∧
        c.stack_type = mc.stack_type ∧ c.stack_index = mc.stack_index ∧
        c.position_in_stack = mc.position_in_stack - 1)) ∧
    (∀ (k1 k2 : Nat) (c1 c1' c2 c2' : Card),
      s.cards[k1]? = some c1 →
      (handleMessage s sender (.makeMove me ts)).1.cards[k1]? = some c1' →
      s.cards[k2]? = some c2 →
      (handleMessage s sender (.makeMove me ts)).1.cards[k2]? = some c2' →
      c1'.is_face_up ≠ c1.is_face_up → c2'.is_face_up ≠ c2.is_face_up →
      k1 = k2) := by
  obtain ⟨hgeti, hmcid⟩ := findIndexCard_eq_some _ _ _ _ h
  have hlen : i < s.cards.length := by
    rcases List.getElem?_eq_some.1 hgeti with ⟨hl, -⟩
    exact hl
  have hred :
      (handleMessage s sender (.makeMove me ts)).1 =
        { s with
            cards := revealCards
              (s.cards.set i
                { mc with
                    stack_type := ts.stack_type
                    stack_index := ts.stack_index
                    position_in_stack :=
                      maxPosInTarget s.cards mc.entity.id ts.stack_type
                        ts.stack_index + 1 })
              mc.stack_type mc.stack_index mc.position_in_stack } := by
    simp only [handleMessage, processMakeMove, h]
  rw [hred]
  set mcStar : Card :=
    { mc with
        stack_type := ts.stack_type
        stack_index := ts.stack_index
        position_in_stack :=
          maxPosInTarget s.cards mc.entity.id ts.stack_type
            ts.stack_index + 1 } with hmcStar
  set cards1 := s.cards.set i mcStar with hcards1
  have h1i : cards1[i]? = some mcStar :=
    List.getElem?_set_eq_of_lt _ hlen
  have h1k : ∀ k, i ≠ k → cards1[k]? = s.cards[k]? := fun k hk =>
    List.getElem?_set_ne hk
  have hlen1 : cards1.length = s.cards.length := by
    simp [hcards1]
  rcases revealCards_cases cards1 mc.stack_type mc.stack_index
      mc.position_in_stack with hrev | ⟨j, d, hfind, htab, hpos0, hface, hrev⟩
  · rw [hrev]
    refine ⟨rfl, hlen1, ?_, ?_⟩
    · intro k c c' hc hc'
      by_cases hk : i = k
      · subst hk
        rw [hgeti] at hc
        rw [h1i] at hc'
        obtain rfl : mc = c := Option.some_inj.1 hc
        obtain rfl : mcStar = c' := Option.some_inj.1 hc'
        exact ⟨rfl, rfl, rfl, rfl, fun hik => absurd rfl hik,
          fun hf => absurd rfl hf⟩
      · rw [h1k k hk] at hc'
        rw [hc] at hc'
        obtain rfl : c = c' := Option.some_inj.1 hc'
        exact ⟨rfl, rfl, rfl, rfl, fun _ => ⟨rfl, rfl, rfl⟩,
          fun hf => absurd rfl hf⟩
    · intro k1 k2 c1 c1' c2 c2' hc1 hc1' hc2 hc2' hf1 hf2
      exfalso
      by_cases hk : i = k1
      · subst hk
        rw [hgeti] at hc1
        rw [h1i] at hc1'
        obtain rfl : mc = c1 := Option.some_inj.1 hc1
        obtain rfl : mcStar = c1' := Option.some_inj.1 hc1'
        exact hf1 rfl
      · rw [h1k k1 hk, hc1] at hc1'
        obtain rfl : c1 = c1' := Option.some_inj.1 hc1'
        exact hf1 rfl
  · obtain ⟨hdget1, hdpred⟩ := findIndexCard_eq_some _ _ _ _ hfind
    obtain ⟨hdt, hdi, hdp⟩ := hdpred
    have hji : j ≠ i := by
      intro hji
      subst hji
      rw [h1i] at hdget1
      obtain rfl : mcStar = d := Option.some_inj.1 hdget1
      exact hdiff ⟨hdt, hdi⟩
    have hdgets : s.cards[j]? = some d := by
      rw [← h1k j (fun hij => hji hij.symm)]
      exact hdget1
    have hjlen : j < cards1.length := by
      rcases List.getElem?_eq_some.1 hdget1 with ⟨hl, -⟩
      exact hl
    have h2j : (cards1.set j { d with is_face_up := true })[j]? =
        some { d with is_face_up := true } :=
      List.getElem?_set_eq_of_lt _ hjlen
    have h2k : ∀ k, j ≠ k →
        (cards1.set j { d with is_face_up := true })[k]? = cards1[k]? :=
      fun k hk => List.getElem?_set_ne hk
    rw [hrev]
    refine ⟨rfl, by simp [hlen1], ?_, ?_⟩
    · intro k c c' hc hc'
      by_cases hkj : j = k
      · subst hkj
        rw [hdgets] at hc
        rw [h2j] at hc'
        obtain rfl : d = c := Option.some_inj.1 hc
        obtain rfl : _ = c' := Option.some_inj.1 hc'
        refine ⟨rfl, rfl, rfl, rfl, fun _ => ⟨rfl, rfl, rfl⟩, fun _ =>
          ⟨hface, rfl, hji, htab, hpos0, hdt, hdi, hdp⟩⟩
      · rw [h2k k hkj] at hc'
        by_cases hki : i = k
        · subst hki
          rw [hgeti] at hc
          rw [h1i] at hc'
          obtain rfl : mc = c := Option.some_inj.1 hc
          obtain rfl : mcStar = c' := Option.some_inj.1 hc'
          exact ⟨rfl, rfl, rfl, rfl, fun hik => absurd rfl hik,
            fun hf => absurd rfl hf⟩
        · rw [h1k k hki, hc] at hc'
          obtain rfl : c = c' := Option.some_inj.1 hc'
          exact ⟨rfl, rfl, rfl, rfl, fun _ => ⟨rfl, rfl, rfl⟩,
            fun hf => absurd rfl hf⟩
    · have honly : ∀ k c c', s.cards[k]? = some c →
          (cards1.set j { d with is_face_up := true })[k]? = some c' →
          c'.is_face_up ≠ c.is_face_up → k = j := by
        intro k c c' hc hc' hf
        by_contra hkj
        rw [h2k k (fun hjk => hkj hjk.symm)] at hc'
        by_cases hki : i = k
        · subst hki
          rw [hgeti] at hc
          rw [h1i] at hc'
          obtain rfl : mc = c := Option.some_inj.1 hc
          obtain rfl : mcStar = c' := Option.some_inj.1 hc'
          exact hf rfl
        · rw [h1k k hki, hc] at hc'
          obtain rfl : c = c' := Option.some_inj.1 hc'
          exact hf rfl
      intro k1 k2 c1 c1' c2 c2' hc1 hc1' hc2 hc2' hf1 hf2
      rw [honly k1 c1 c1' hc1 hc1' hf1, honly k2 c2 c2' hc2 hc2' hf2]

/-- Sample state for the C6 counterexample: the moved card sits face down
at position 5 of Tableau pile 0, with one other card at position 3. -/
def c6State : ServerState :=
  { players := []
    cards :=
      [{ entity := { id := 1 }, suit := tableauStr, rank := tableauStr
         is_face_up := false, stack_type := tableauStr, stack_index := some 0
         position_in_stack := 5, position := { x := 0, y := 0 } },
       { entity := { id := 2 }, suit := tableauStr, rank := tableauStr
         is_face_up := false, stack_type := tableauStr, stack_index := some 0
         position_in_stack := 3, position := { x := 0, y := 0 } }]
    clients := [{ cid := 1, isOpen := true }], nextPlayerId := 2 }

/-- Counterexample to C6 as stated: moving card 1 onto its own pile
(`Tableau[0]`) recomputes its position to 4 (one above the other card's
3), after which the reveal search for old position `5 - 1 = 4` finds the
moved card itself and flips it face up.  The moved card's `is_face_up`
thus changes even though the claim allows a flip only of the card that
sat one position beneath it. -/
theorem makeMove_frame_effect_counterexample :
    (c6State.cards[0]?).map (fun c => (c.entity.id, c.is_face_up)) =
      some (1, false) ∧
    ((handleMessage c6State 1 (.makeMove { id := 1 }
        { stack_type := tableauStr, stack_index := some 0 })).1.cards[0]?).map
        (fun c => (c.entity.id, c.is_face_up)) = some (1, true) := by
  decide

/-- Sample state for the C6 witness: a two-card Tableau pile. -/
def c6wState : ServerState :=
  { players := []
    cards :=
      [{ entity := { id := 1 }, suit := tableauStr, rank := tableauStr
         is_face_up := false, stack_type := tableauStr, stack_index := some 0
         position_in_stack := 0, position := { x := 0, y := 0 } },
       { entity := { id := 2 }, suit := tableauStr, rank := tableauStr
         is_face_up := true, stack_type := tableauStr, stack_index := some 0
         position_in_stack := 1, position := { x := 0, y := 0 } }]
    clients := [{ cid := 1, isOpen := true }], nextPlayerId := 2 }

/-- The card moved in the C6 witness (top of the two-card pile). -/
def c6wCard : Card :=
  { entity := { id := 2 }, suit := tableauStr, rank := tableauStr
    is_face_up := true, stack_type := tableauStr, stack_index := some 0
    position_in_stack := 1, position := { x := 0, y := 0 } }

/-- Witness for the amended C6: card 2 moves from the pile to an
off-pile target, and the frame property holds. -/
theorem makeMove_frame_effect_witness :
    (findIndexCard (fun c => c.entity.id = (2 : Int)) c6wState.cards =
      some (1, c6wCard)) ∧
    (¬(playerNameStr = c6wCard.stack_type ∧
        (none : Option Int) = c6wCard.stack_index)) ∧
    ((handleMessage c6wState 1 (.makeMove { id := 2 }
        { stack_type := playerNameStr, stack_index := none })).1.players =
      c6wState.players ∧
    (handleMessage c6wState 1 (.makeMove { id := 2 }
        { stack_type := playerNameStr, stack_index := none })).1.cards.length =
      c6wState.cards.length ∧
    (∀ (k : Nat) (c c' : Card), c6wState.cards[k]? = some c →
      (handleMessage c6wState 1 (.makeMove { id := 2 }
          { stack_type := playerNameStr, stack_index := none })).1.cards[k]? =
        some c' →
      c'.entity = c.entity ∧ c'.suit = c.suit ∧ c'.rank = c.rank ∧
      c'.position = c.position ∧
      (k ≠ 1 → c'.stack_type = c.stack_type ∧ c'.stack_index = c.stack_index ∧
        c'.position_in_stack = c.position_in_stack) ∧
      (c'.is_face_up ≠ c.is_face_up →
        c.is_face_up = false ∧ c'.is_face_up = true ∧ k ≠ 1 ∧
        c6wCard.stack_type = tableauStr ∧ c6wCard.position_in_stack > 0 ∧
        c.stack_type = c6wCard.stack_type ∧ c.stack_index = c6wCard.stack_index ∧
        c.position_in_stack = c6wCard.position_in_stack - 1)) ∧
    (∀ (k1 k2 : Nat) (c1 c1' c2 c2' : Card),
      c6wState.cards[k1]? = some c1 →
      (handleMessage c6wState 1 (.makeMove { id := 2 }
          { stack_type := playerNameStr, stack_index := none })).1.cards[k1]? =
        some c1' →
      c6wState.cards[k2]? = some c2 →
      (handleMessage c6wState 1 (.makeMove { id := 2 }
          { stack_type := playerNameStr, stack_index := none })).1.cards[k2]? =
        some c2' →
      c1'.is_face_up ≠ c1.is_face_up → c2'.is_face_up ≠ c2.is_face_up →
      k1 = k2)) :=
  ⟨by decide, by decide,
    makeMove_frame_effect c6wState 1 { id := 2 }
      { stack_type := playerNameStr, stack_index := none } 1 c6wCard
      (by decide) (by decide)⟩

/-- The string constant `'Waste'`, used as an off-Tableau target stack in
concrete scenarios (the server compares stack types purely as strings). -/
def wasteStr : String := "Waste"

/-- C2 (amended): assume the moved card was the strict top of its source
pile (every other card of that pile sits strictly lower), positions
within that pile are pairwise distinct, and the target stack differs from
the source pile.  Then any card whose `is_face_up` the move flips lies in
the source Tableau pile and ends strictly above every other card of that
pile — it is the top card remaining there (ws_server.js lines 411-430).
The extra assumptions are forced: the server validates nothing, and a
`MakeMove` for a covered card (or onto the card's own pile) makes the
reveal step flip a card that is not the remaining top — see the
counterexample. -/
theorem makeMove_reveals_only_top_of_source (s : ServerState) (sender : Int)
    (me : Entity) (ts : TargetStack) (i : Nat) (mc : Card)
    (h : findIndexCard (fun c => c.entity.id = me.id) s.cards = some (i, mc))
    (hdiff : ¬(ts.stack_type = mc.stack_type ∧ ts.stack_index = mc.stack_index))
    (htop : ∀ (k : Nat) (c : Card), s.cards[k]? = some c → k ≠ i →
      c.stack_type = mc.stack_type → c.stack_index = mc.stack_index →
      c.position_in_stack < mc.position_in_stack)
    (hdist : ∀ (k1 k2 : Nat) (c1 c2 : Card), s.cards[k1]? = some c1 →
      s.cards[k2]? = some c2 → k1 ≠ k2 →
      c1.stack_type = mc.stack_type → c1.stack_index = mc.stack_index →
      c2.stack_type = mc.stack_type → c2.stack_index = mc.stack_index →
      c1.position_in_stack ≠ c2.position_in_stack) :
    ∀ (k : Nat) (c c' : Card), s.cards[k]? = some c →
      (handleMessage s sender (.makeMove me ts)).1.cards[k]? = some c' →
      c'.is_face_up ≠ c.is_face_up →
      mc.stack_type = tableauStr ∧
      c'.stack_type = mc.stack_type ∧ c'.stack_index = mc.stack_index ∧
      (∀ (k2 : Nat) (c2 : Card),
        (handleMessage s sender (.makeMove me ts)).1.cards[k2]? = some c2 →
        k2 ≠ k → c2.stack_type = mc.stack_type →
        c2.stack_index = mc.stack_index →
        c2.position_in_stack < c'.position_in_stack) := by
  obtain ⟨hgeti, hmcid⟩ := findIndexCard_eq_some _ _ _ _ h
  have hlen : i < s.cards.length := by
    rcases List.getElem?_eq_some.1 hgeti with ⟨hl, -⟩
    exact hl
  have hred :
      (handleMessage s sender (.makeMove me ts)).1 =
        { s with
            cards := revealCards
              (s.cards.set i
                { mc with
                    stack_type := ts.stack_type
                    stack_index := ts.stack_index
                    position_in_stack :=
                      maxPosInTarget s.cards mc.entity.id ts.stack_type
                        ts.stack_index + 1 })
              mc.stack_type mc.stack_index mc.position_in_stack } := by
    simp only [handleMessage, processMakeMove, h]
  rw [hred]
  set mcStar : Card :=
    { mc with
        stack_type := ts.stack_type
        stack_index := ts.stack_index
        position_in_stack :=
          maxPosInTarget s.cards mc.entity.id ts.stack_type
            ts.stack_index + 1 } with hmcStar
  set cards1 := s.cards.set i mcStar with hcards1
  have h1i : cards1[i]? = some mcStar :=
    List.getElem?_set_eq_of_lt _ hlen
  have h1k : ∀ k, i ≠ k → cards1[k]? = s.cards[k]? := fun k hk =>
    List.getElem?_set_ne hk
  rcases revealCards_cases cards1 mc.stack_type mc.stack_index
      mc.position_in_stack with hrev | ⟨j, d, hfind, htab, hpos0, hface, hrev⟩
  · rw [hrev]
    intro k c c' hc hc' hf
    exfalso
    by_cases hk : i = k
    · subst hk
      rw [hgeti] at hc
      rw [h1i] at hc'
      obtain rfl : mc = c := Option.some_inj.1 hc
      obtain rfl : mcStar = c' := Option.some_inj.1 hc'
      exact hf rfl
    · rw [h1k k hk, hc] at hc'
      obtain rfl : c = c' := Option.some_inj.1 hc'
      exact hf rfl
  · obtain ⟨hdget1, hdpred⟩ := findIndexCard_eq_some _ _ _ _ hfind
    obtain ⟨hdt, hdi, hdp⟩ := hdpred
    have hji : j ≠ i := by
      intro hji
      subst hji
      rw [h1i] at hdget1
      obtain rfl : mcStar = d := Option.some_inj.1 hdget1
      exact hdiff ⟨hdt, hdi⟩
    have hdgets : s.cards[j]? = some d := by
      rw [← h1k j (fun hij => hji hij.symm)]
      exact hdget1
    have hjlen : j < cards1.length := by
      rcases List.getElem?_eq_some.1 hdget1 with ⟨hl, -⟩
      exact hl
    have h2j : (cards1.set j { d with is_face_up := true })[j]? =
        some { d with is_face_up := true } :=
      List.getElem?_set_eq_of_lt _ hjlen
    have h2k : ∀ k, j ≠ k →
        (cards1.set j { d with is_face_up := true })[k]? = cards1[k]? :=
      fun k hk => List.getElem?_set_ne hk
    rw [hrev]
    intro k c c' hc hc' hf
    have hkj : k = j := by
      by_contra hkj
      rw [h2k k (fun hjk => hkj hjk.symm)] at hc'
      by_cases hki : i = k
      · subst hki
        rw [hgeti] at hc
        rw [h1i] at hc'
        obtain rfl : mc = c := Option.some_inj.1 hc
        obtain rfl : mcStar = c' := Option.some_inj.1 hc'
        exact hf rfl
      · rw [h1k k hki, hc] at hc'
        obtain rfl : c = c' := Option.some_inj.1 hc'
        exact hf rfl
    subst hkj
    rw [h2j] at hc'
    obtain rfl : _ = c' := Option.some_inj.1 hc'
    refine ⟨htab, hdt, hdi, ?_⟩
    intro k2 c2 hc2 hk2 ht2 hi2
    by_cases hk2i : i = k2
    · subst hk2i
      rw [h2k i hji, h1i] at hc2
      obtain rfl : mcStar = c2 := Option.some_inj.1 hc2
      exact absurd ⟨ht2, hi2⟩ hdiff
    · rw [h2k k2 (fun hjk => hk2 hjk.symm), h1k k2 hk2i] at hc2
      have hlt := htop k2 c2 hc2 (fun hk2i2 => hk2i hk2i2.symm) ht2 hi2
      have hne := hdist k2 k c2 d hc2 hdgets hk2 ht2 hi2 hdt hdi
      simp only []
      rw [hdp] at hne ⊢
      omega

/-- Sample state for the C2 counterexample: Tableau pile 0 holds three
cards, positions 0 and 1 face down, position 2 face up. -/
def c2State : ServerState :=
  { players := []
    cards :=
      [{ entity := { id := 1 }, suit := tableauStr, rank := tableauStr
         is_face_up := false, stack_type := tableauStr, stack_index := some 0
         position_in_stack := 0, position := { x := 0, y := 0 } },
       { entity := { id := 2 }, suit := tableauStr, rank := tableauStr
         is_face_up := false, stack_type := tableauStr, stack_index := some 0
         position_in_stack := 1, position := { x := 0, y := 0 } },
       { entity := { id := 3 }, suit := tableauStr, rank := tableauStr
         is_face_up := true, stack_type := tableauStr, stack_index := some 0
         position_in_stack := 2, position := { x := 0, y := 0 } }]
    clients := [{ cid := 1, isOpen := true }], nextPlayerId := 2 }

/-- Counterexample to C2 as stated: moving the covered card 2 (position
1) to the Waste makes the reveal step flip the card at position 0, while
card 3 remains in the same Tableau pile at position 2 — a card below the
pile's top gets flipped face up by move processing. -/
theorem makeMove_reveals_only_top_counterexample :
    (c2State.cards[0]?).map (fun c => c.is_face_up) = some false ∧
    ((handleMessage c2State 1 (.makeMove { id := 2 }
        { stack_type := wasteStr, stack_index := none })).1.cards[0]?).map
        (fun c => (c.is_face_up, c.stack_type, c.stack_index,
          c.position_in_stack)) = some (true, tableauStr, some 0, 0) ∧
    ((handleMessage c2State 1 (.makeMove { id := 2 }
        { stack_type := wasteStr, stack_index := none })).1.cards[2]?).map
        (fun c => (c.stack_type, c.stack_index, c.position_in_stack)) =
      some (tableauStr, some 0, 2) := by
  decide

/-- Sample state for the C2 witness: a two-card Tableau pile whose top is
moved away legitimately. -/
def c2wState : ServerState :=
  { players := []
    cards :=
      [{ entity := { id := 1 }, suit := tableauStr, rank := tableauStr
         is_face_up := false, stack_type := tableauStr, stack_index := some 0
         position_in_stack := 0, position := { x := 0, y := 0 } },
       { entity := { id := 2 }, suit := tableauStr, rank := tableauStr
         is_face_up := true, stack_type := tableauStr, stack_index := some 0
         position_in_stack := 1, position := { x := 0, y := 0 } }]
    clients := [{ cid := 1, isOpen := true }], nextPlayerId := 2 }

/-- The card moved in the C2 witness (top of its pile). -/
def c2wCard : Card :=
  { entity := { id := 2 }, suit := tableauStr, rank := tableauStr
    is_face_up := true, stack_type := tableauStr, stack_index := some 0
    position_in_stack := 1, position := { x := 0, y := 0 } }

/-- Witness for the amended C2 at a concrete input: moving the pile's top
card to the Waste flips only the new top. -/
theorem makeMove_reveals_only_top_of_source_witness :
    (findIndexCard (fun c => c.entity.id = (2 : Int)) c2wState.cards =
      some (1, c2wCard)) ∧
    (¬(wasteStr = c2wCard.stack_type ∧
        (none : Option Int) = c2wCard.stack_index)) ∧
    (∀ (k : Nat) (c : Card), c2wState.cards[k]? = some c → k ≠ 1 →
      c.stack_type = c2wCard.stack_type → c.stack_index = c2wCard.stack_index →
      c.position_in_stack < c2wCard.position_in_stack) ∧
    (∀ (k : Nat) (c c' : Card), c2wState.cards[k]? = some c →
      (handleMessage c2wState 1 (.makeMove { id := 2 }
          { stack_type := wasteStr, stack_index := none })).1.cards[k]? =
        some c' →
      c'.is_face_up ≠ c.is_face_up →
      c2wCard.stack_type = tableauStr ∧
      c'.stack_type = c2wCard.stack_type ∧ c'.stack_index = c2wCard.stack_index ∧
      (∀ (k2 : Nat) (c2 : Card),
        (handleMessage c2wState 1 (.makeMove { id := 2 }
            { stack_type := wasteStr, stack_index := none })).1.cards[k2]? =
          some c2 →
        k2 ≠ k → c2.stack_type = c2wCard.stack_type →
        c2.stack_index = c2wCard.stack_index →
        c2.position_in_stack < c'.position_in_stack)) :=
  ⟨by decide, by decide,
    fun k c hc hk ht hi => by
      revert hc
      have hk2 : k = 0 ∨ k = 1 ∨ 2 ≤ k := by omega
      rcases hk2 with rfl | rfl | hge
      · intro hc
        obtain rfl : _ = c := Option.some_inj.1 hc
        decide
      · exact absurd rfl hk
      · intro hc
        rw [List.getElem?_eq_none (by simpa [c2wState] using hge)] at hc
        exact absurd hc (by simp),
    makeMove_reveals_only_top_of_source c2wState 1 { id := 2 }
      { stack_type := wasteStr, stack_index := none } 1 c2wCard (by decide)
      (by decide)
      (fun k c hc hk ht hi => by
        revert hc
        have hk2 : k = 0 ∨ k = 1 ∨ 2 ≤ k := by omega
        rcases hk2 with rfl | rfl | hge
        · intro hc
          obtain rfl : _ = c := Option.some_inj.1 hc
          decide
        · exact absurd rfl hk
        · intro hc
          rw [List.getElem?_eq_none (by simpa [c2wState] using hge)] at hc
          exact absurd hc (by simp))
      (fun k1 k2 c1 c2 hc1 hc2 hk ht1 hi1 ht2 hi2 => by
        revert hc1 hc2
        have hk1c : k1 = 0 ∨ k1 = 1 ∨ 2 ≤ k1 := by omega
        have hk2c : k2 = 0 ∨ k2 = 1 ∨ 2 ≤ k2 := by omega
        rcases hk1c with rfl | rfl | hge1 <;> rcases hk2c with rfl | rfl | hge2
        all_goals intro hc1 hc2
        all_goals first
          | exact absurd rfl hk
          | (rw [List.getElem?_eq_none (by simpa [c2wState] using hge1)] at hc1
             exact absurd hc1 (by simp))
          | (rw [List.getElem?_eq_none (by simpa [c2wState] using hge2)] at hc2
             exact absurd hc2 (by simp))
          | (obtain rfl : _ = c1 := Option.some_inj.1 hc1
             obtain rfl : _ = c2 := Option.some_inj.1 hc2
             decide))⟩

/-- C5: when the moved card is found, the sends of the `MakeMove` case
are exactly one `GameStateUpdate` carrying the full player list and the
full updated card list to every open client of the set — the sender's
connection included, since `broadcastGameStateUpdate` excludes nobody
(ws_server.js lines 432-434, 469-490). -/
theorem makeMove_broadcasts_to_all_open_clients (s : ServerState)
    (sender : Int) (me : Entity) (ts : TargetStack) (i : Nat) (mc : Card)
    (h : findIndexCard (fun c => c.entity.id = me.id) s.cards = some (i, mc)) :
    ∃ cards2,
      handleMessage s sender (.makeMove me ts) =
        ({ s with cards := cards2 },
          (s.clients.filter fun c => c.isOpen).map
            fun c => (c.cid, ServerMessage.gameStateUpdate s.players cards2)) ∧
      ∀ c ∈ s.clients, c.isOpen →
        (c.cid, ServerMessage.gameStateUpdate s.players cards2) ∈
          (handleMessage s sender (.makeMove me ts)).2 := by
  refine ⟨revealCards
      (s.cards.set i
        { mc with
            stack_type := ts.stack_type
            stack_index := ts.stack_index
            position_in_stack :=
              maxPosInTarget s.cards mc.entity.id ts.stack_type ts.stack_index + 1 })
      mc.stack_type mc.stack_index mc.position_in_stack, ?_, ?_⟩
  · simp [handleMessage, processMakeMove, h, broadcastGameStateUpdate,
      broadcast_none]
  · intro c hc hopen
    simp [handleMessage, processMakeMove, h, broadcastGameStateUpdate,
      broadcast_none]
    exact ⟨c, ⟨hc, hopen⟩, rfl⟩

/-- Sample state for the C5 witness: two open clients and one closed
client mirror the `readyState` filter of `broadcast`. -/
def c5State : ServerState :=
  { players := [{ id := 1, name := playerNameStr }]
    cards :=
      [{ entity := { id := 5 }, suit := tableauStr, rank := tableauStr
         is_face_up := true, stack_type := wasteStr, stack_index := none
         position_in_stack := 0, position := { x := 0, y := 0 } }]
    clients := [{ cid := 1, isOpen := true }, { cid := 2, isOpen := true },
      { cid := 3, isOpen := false }]
    nextPlayerId := 4 }

/-- The card moved in the C5 witness. -/
def c5Card : Card :=
  { entity := { id := 5 }, suit := tableauStr, rank := tableauStr
    is_face_up := true, stack_type := wasteStr, stack_index := none
    position_in_stack := 0, position := { x := 0, y := 0 } }

/-- Witness for C5: the move by client 1 produces a `GameStateUpdate` to
both open clients — the sender included — and not to the closed one. -/
theorem makeMove_broadcasts_to_all_open_clients_witness :
    (findIndexCard (fun c => c.entity.id = (5 : Int)) c5State.cards =
      some (0, c5Card)) ∧
    (∃ cards2,
      handleMessage c5State 1 (.makeMove { id := 5 }
          { stack_type := tableauStr, stack_index := some 0 }) =
        ({ c5State with cards := cards2 },
          (c5State.clients.filter fun c => c.isOpen).map
            fun c => (c.cid, ServerMessage.gameStateUpdate c5State.players cards2)) ∧
      ∀ c ∈ c5State.clients, c.isOpen →
        (c.cid, ServerMessage.gameStateUpdate c5State.players cards2) ∈
          (handleMessage c5State 1 (.makeMove { id := 5 }
            { stack_type := tableauStr, stack_index := some 0 })).2) :=
  ⟨by decide,
    makeMove_broadcasts_to_all_open_clients c5State 1 { id := 5 }
      { stack_type := tableauStr, stack_index := some 0 } 0 c5Card (by decide)⟩

/-- Membership in a `broadcast`: a pair is sent iff it carries the
broadcast message and some open, non-sender client of the set has that
id. -/
theorem mem_broadcast (clients : List Client) (msg : ServerMessage)
    (sender : Option Int) (x : Int) (m : ServerMessage) :
    (x, m) ∈ broadcast clients msg sender ↔
      m = msg ∧ ∃ c ∈ clients, c.cid = x ∧ c.isOpen ∧ some c.cid ≠ sender := by
  simp only [broadcast, List.mem_filterMap]
  constructor
  · rintro ⟨c, hc, hf⟩
    split at hf
    · rename_i hcond
      obtain ⟨h1, h2⟩ := Prod.mk.injEq .. ▸ Option.some_inj.1 hf
      exact ⟨h2.symm, c, hc, h1, hcond.2, hcond.1⟩
    · exact absurd hf (by simp)
  · rintro ⟨rfl, c, hc, rfl, hopen, hsender⟩
    refine ⟨c, hc, ?_⟩
    rw [if_pos ⟨hsender, hopen⟩]

/-- Sample state for the C7 counterexample: a populated server. -/
def c7State : ServerState :=
  { players := [{ id := 1, name := playerNameStr }]
    cards := []
    clients := [{ cid := 1, isOpen := true }]
    nextPlayerId := 2 }

/-- Counterexample to C7 as stated: the latest server version has no
`JoinGame` case in its message switch — the message lands in `default`,
which only logs.  No `GameJoined` reply and no `PlayerJoined` broadcast
are produced, and the state does not change; joining instead happens in
the `connection` handler. -/
theorem joinGame_message_is_ignored_counterexample :
    handleMessage c7State 1 (.joinGame playerNameStr) = (c7State, []) := by
  decide

/-- C7 (amended): the `GameJoined` reply and the `PlayerJoined` notice
are produced when a client connects, not upon a `JoinGame` message
(ws_server.js lines 276-307).  On `connection` the server assigns
`nextPlayerId`, replies to the new socket — first send — with
`GameJoined` carrying that id and the current state (player list
including the new player, current cards), broadcasts `PlayerJoined` to
every other open client, and sends no `PlayerJoined` to the new socket.
The freshness hypothesis (no stale client carries the about-to-be-used
id) holds in every reachable state since ids are never reused. -/
theorem connect_sends_gameJoined_and_broadcasts_playerJoined
    (s : ServerState)
    (hfresh : ∀ c ∈ s.clients, c.cid ≠ s.nextPlayerId) :
    (handleConnect s).2.1 = s.nextPlayerId ∧
    ((handleConnect s).2.2).head? =
      some (s.nextPlayerId,
        ServerMessage.gameJoined s.nextPlayerId
          (s.players ++
            [{ id := s.nextPlayerId
               name := playerNameStr ++ toString s.nextPlayerId }])
          s.cards) ∧
    (∀ c ∈ s.clients, c.isOpen →
      (c.cid, ServerMessage.playerJoined
        { id := s.nextPlayerId
          name := playerNameStr ++ toString s.nextPlayerId }) ∈
        (handleConnect s).2.2) ∧
    (∀ p : Player,
      (s.nextPlayerId, ServerMessage.playerJoined p) ∉ (handleConnect s).2.2) := by
  refine ⟨rfl, rfl, ?_, ?_⟩
  · intro c hc hopen
    simp only [handleConnect, List.mem_cons]
    right
    rw [mem_broadcast]
    refine ⟨rfl, c, List.mem_append_left _ hc, rfl, hopen, ?_⟩
    simpa using hfresh c hc
  · intro p hp
    simp only [handleConnect, List.mem_cons] at hp
    rcases hp with hp | hp
    · exact ServerMessage.noConfusion (Prod.mk.injEq .. ▸ hp).2
    · rw [mem_broadcast] at hp
      obtain ⟨-, c, hc, hcid, -, hsender⟩ := hp
      exact hsender (by rw [hcid])

/-- Witness for the amended C7 at a concrete state with one open
client. -/
theorem connect_sends_gameJoined_and_broadcasts_playerJoined_witness :
    (∀ c ∈ c7State.clients, c.cid ≠ c7State.nextPlayerId) ∧
    ((handleConnect c7State).2.1 = c7State.nextPlayerId ∧
    ((handleConnect c7State).2.2).head? =
      some (c7State.nextPlayerId,
        ServerMessage.gameJoined c7State.nextPlayerId
          (c7State.players ++
            [{ id := c7State.nextPlayerId
               name := playerNameStr ++ toString c7State.nextPlayerId }])
          c7State.cards) ∧
    (∀ c ∈ c7State.clients, c.isOpen →
      (c.cid, ServerMessage.playerJoined
        { id := c7State.nextPlayerId
          name := playerNameStr ++ toString c7State.nextPlayerId }) ∈
        (handleConnect c7State).2.2) ∧
    (∀ p : Player,
      (c7State.nextPlayerId, ServerMessage.playerJoined p) ∉
        (handleConnect c7State).2.2)) :=
  ⟨by decide,
    connect_sends_gameJoined_and_broadcasts_playerJoined c7State (by decide)⟩

/-- A message never changes the `nextPlayerId` counter: only the
`connection` handler touches it. -/
theorem handleMessage_nextPlayerId (s : ServerState) (sender : Int)
    (m : ClientMessage) :
    (handleMessage s sender m).1.nextPlayerId = s.nextPlayerId := by
  cases m with
  | provideInitialState cs =>
      by_cases hc : s.cards.length = 0 <;> simp [handleMessage, hc]
  | makeMove me ts =>
      rcases hp : processMakeMove s.cards me ts with _ | cards2 <;>
        simp [handleMessage, hp]
  | requestGameState => rfl
  | ping => rfl
  | joinGame n => rfl

/-- Counter evolution along a trace: the ids assigned by the connects of
a trace starting at `s` are `s.nextPlayerId, s.nextPlayerId + 1, …`, one
per connect, in order. -/
theorem assignedIds_eq_range (es : List Event) :
    ∀ s : ServerState,
      assignedIds s es =
        (List.range (countConnects es)).map
          fun k : Nat => s.nextPlayerId + (k : Int) := by
  induction es with
  | nil => intro s; rfl
  | cons e tl ih =>
      intro s
      cases e with
      | connect =>
          have hnext : (stepEvent s .connect).nextPlayerId = s.nextPlayerId + 1 :=
            rfl
          simp only [assignedIds, countConnects, stepEvent, ih, hnext,
            List.range_succ_eq_map, List.map_cons, List.map_map,
            List.singleton_append]
          congr 1
          · simp
          · refine List.map_congr_left fun k _ => ?_
            simp only [Function.comp]
            have h2 : (handleConnect s).1.nextPlayerId = s.nextPlayerId + 1 :=
              rfl
            rw [h2]
            push_cast
            ring
      | disconnect pid =>
          have hnext : (stepEvent s (.disconnect pid)).nextPlayerId =
              s.nextPlayerId := rfl
          simp only [assignedIds, countConnects, ih, hnext, List.nil_append]
      | message pid m =>
          have hnext : (stepEvent s (.message pid m)).nextPlayerId =
              s.nextPlayerId := handleMessage_nextPlayerId s pid m
          simp only [assignedIds, countConnects, ih, hnext, List.nil_append]

/-- C8: from the start state, every trace of connects, disconnects and
messages hands out player ids `1, 2, 3, …` in connection order — the
counter starts at 1, is only ever incremented, and ids are therefore
strictly increasing and never reused, even after disconnects remove
players (ws_server.js lines 266, 277, 310-323). -/
theorem assigned_player_ids_strictly_increasing (es : List Event) :
    assignedIds initialState es =
      ((List.range (countConnects es)).map fun k : Nat => 1 + (k : Int)) ∧
    List.Pairwise (· < ·) (assignedIds initialState es) := by
  have h := assignedIds_eq_range es initialState
  refine ⟨h, ?_⟩
  rw [h]
  refine List.Pairwise.map _ ?_ (List.pairwise_lt_range _)
  intro a b hab
  have : (a : Int) < b := by exact_mod_cast hab
  omega

/-! ## JSON wire model

`broadcastGameStateUpdate` serializes its message with `JSON.stringify`
(ws_server.js line 489) and the receiving endpoint parses the text with
`JSON.parse` (ws_server.js line 329).  Both are modelled here on the
value subset the server's messages inhabit: numbers are integers,
strings carry no control characters (`JSON.stringify` would escape
those as `\u…`, which this model does not implement; the round-trip
theorem is stated on the faithful domain), and the printer emits the
spacing-free output `JSON.stringify` produces.  The parser is a fueled
recursive-descent reader of exactly that grammar, rejecting trailing
input as `JSON.parse` does. -/

mutual
inductive Json where
  | null
  | bool (b : Bool)
  | num (n : Int)
  | str (s : String)
  | arr (xs : JsonList)
  | obj (fs : JsonFields)

inductive JsonList where
  | nil
  | cons (v : Json) (tl : JsonList)

inductive JsonFields where
  | nil
  | cons (k : String) (v : Json) (tl : JsonFields)
end

/-- Decimal digit to its character, `'0'` on out-of-range input (never
reached: `Nat.digits` yields digits below the base). -/
def digitToChar : Nat → Char
  | 0 => '0'
  | 1 => '1'
  | 2 => '2'
  | 3 => '3'
  | 4 => '4'
  | 5 => '5'
  | 6 => '6'
  | 7 => '7'
  | 8 => '8'
  | 9 => '9'
  | _ => '0'

/-- Decimal print of a natural number, most significant digit first, no
leading zeros — the integer output format of `JSON.stringify`. -/
def natToChars (n : Nat) : List Char :=
  if n = 0 then ['0'] else ((Nat.digits 10 n).reverse).map digitToChar

/-- Decimal print of an integer with leading minus sign when negative. -/
def intToChars (n : Int) : List Char :=
  if n < 0 then '-' :: natToChars n.natAbs else natToChars n.toNat

/-- String escaping of `JSON.stringify` restricted to the two characters
that must always be escaped; control characters are outside this model's
domain. -/
def escapeChar (c : Char) : List Char :=
  if c = '"' ∨ c = '\\' then ['\\', c] else [c]

/-- Escape every character of a string body. -/
def escapeChars : List Char → List Char
  | [] => []
  | c :: tl => escapeChar c ++ escapeChars tl

/-- The four characters of the literal `null`. -/
def nullChars : List Char := ['n', 'u', 'l', 'l']

/-- The four characters of the literal `true`. -/
def trueChars : List Char := ['t', 'r', 'u', 'e']

/-- The five characters of the literal `false`. -/
def falseChars : List Char := ['f', 'a', 'l', 's', 'e']

mutual
/-- The text `JSON.stringify` produces for a value, as characters. -/
def printJson : Json → List Char
  | .null => nullChars
  | .bool true => trueChars
  | .bool false => falseChars
  | .num n => intToChars n
  | .str s => '"' :: (escapeChars s.data ++ ['"'])
  | .arr .nil => ['[', ']']
  | .arr (.cons v tl) => '[' :: (printElems (.cons v tl) ++ [']'])
  | .obj .nil => ['\x7b', '\x7d']
  | .obj (.cons k v tl) => '\x7b' :: (printFields (.cons k v tl) ++ ['\x7d'])

/-- Comma-separated element list of a non-empty array. -/
def printElems : JsonList → List Char
  | .nil => []
  | .cons v .nil => printJson v
  | .cons v (.cons w tl) => printJson v ++ ',' :: printElems (.cons w tl)

/-- Comma-separated `"key":value` list of a non-empty object. -/
def printFields : JsonFields → List Char
  | .nil => []
  | .cons k v .nil => '"' :: (escapeChars k.data ++ ['"', ':'] ++ printJson v)
  | .cons k v (.cons k2 w tl) =>
      '"' :: (escapeChars k.data ++ ['"', ':'] ++ printJson v
        ++ ',' :: printFields (.cons k2 w tl))
end

/-- An ASCII decimal digit. -/
def isDigitChar (c : Char) : Bool := 48 ≤ c.toNat && c.toNat ≤ 57

/-- Numeric value of a digit character. -/
def charDigit (c : Char) : Nat := c.toNat - 48

/-- Does the input start with a digit (the only continuation that could
extend a just-parsed number)? -/
def headDigit : List Char → Bool
  | [] => false
  | c :: _ => isDigitChar c

/-- Greedy digit-run reader accumulating the decimal value. -/
def parseDigits : List Char → Nat → Nat × List Char
  | [], acc => (acc, [])
  | c :: cs, acc =>
      if isDigitChar c then parseDigits cs (acc * 10 + charDigit c)
      else (acc, c :: cs)

/-- Nonnegative number reader: at least one leading digit. -/
def parseNumber : List Char → Option (Nat × List Char)
  | [] => none
  | c :: cs =>
      if isDigitChar c then some (parseDigits (c :: cs) 0) else none

/-- String-body reader, one character per step; the flag records that the
previous character was an unconsumed backslash, so the current character
is taken literally (the two modelled escapes map a character to
itself). -/
def parseStringAux : Bool → List Char → Option (List Char × List Char)
  | _, [] => none
  | true, e :: rest =>
      (parseStringAux false rest).map fun p => (e :: p.1, p.2)
  | false, c :: rest =>
      if c = '"' then some ([], rest)
      else if c = '\\' then parseStringAux true rest
      else (parseStringAux false rest).map fun p => (c :: p.1, p.2)

/-- String-body reader, after the opening quote: collects characters up
to the closing quote, undoing the two modelled escapes. -/
def parseStringBody (cs : List Char) : Option (List Char × List Char) :=
  parseStringAux false cs

mutual
/-- Fueled value reader of the `JSON.parse` grammar restricted to this
model's subset (integer numerals, two string escapes, no whitespace —
`JSON.stringify` emits none). -/
def parseValue : Nat → List Char → Option (Json × List Char)
  | 0, _ => none
  | _ + 1, [] => none
  | f + 1, c :: cs =>
      if isDigitChar c then
        match parseNumber (c :: cs) with
        | some (n, rest) => some (.num (n : Int), rest)
        | none => none
      else if c = '-' then
        match parseNumber cs with
        | some (n, rest) => some (.num (-(n : Int)), rest)
        | none => none
      else if c = '"' then
        match parseStringBody cs with
        | some (sc, rest) => some (.str (String.mk sc), rest)
        | none => none
      else if c = 'n' then
        match cs with
        | 'u' :: 'l' :: 'l' :: rest => some (.null, rest)
        | _ => none
      else if c = 't' then
        match cs with
        | 'r' :: 'u' :: 'e' :: rest => some (.bool true, rest)
        | _ => none
      else if c = 'f' then
        match cs with
        | 'a' :: 'l' :: 's' :: 'e' :: rest => some (.bool false, rest)
        | _ => none
      else if c = '[' then
        match cs with
        | ']' :: rest => some (.arr .nil, rest)
        | _ =>
            match parseElems f cs with
            | some (xs, rest) => some (.arr xs, rest)
            | none => none
      else if c = '\x7b' then
        match cs with
        | '\x7d' :: rest => some (.obj .nil, rest)
        | _ =>
            match parseFields f cs with
            | some (fs, rest) => some (.obj fs, rest)
            | none => none
      else none

/-- Fueled element-list reader: value, then `,` and more elements or the
closing `]`. -/
def parseElems : Nat → List Char → Option (JsonList × List Char)
  | 0, _ => none
  | f + 1, cs =>
      match parseValue f cs with
      | some (v, ',' :: rest) =>
          match parseElems f rest with
          | some (xs, rest2) => some (.cons v xs, rest2)
          | none => none
      | some (v, ']' :: rest) => some (.cons v .nil, rest)
      | _ => none

/-- Fueled field-list reader: quoted key, `:`, value, then `,` and more
fields or the closing brace. -/
def parseFields : Nat → List Char → Option (JsonFields × List Char)
  | 0, _ => none
  | f + 1, cs =>
      match cs with
      | '"' :: cs2 =>
          match parseStringBody cs2 with
          | some (kc, ':' :: cs3) =>
              match parseValue f cs3 with
              | some (v, ',' :: rest) =>
                  match parseFields f rest with
                  | some (fs, rest2) => some (.cons (String.mk kc) v fs, rest2)
                  | none => none
              | some (v, '\x7d' :: rest) =>
                  some (.cons (String.mk kc) v .nil, rest)
              | _ => none
          | _ => none
      | _ => none
end

/-- Model of `JSON.stringify`. -/
def jsonStringify (v : Json) : String := String.mk (printJson v)

/-- Model of `JSON.parse`: run the value reader with ample fuel and
reject trailing input. -/
def jsonParse (s : String) : Option Json :=
  match parseValue (s.length + 1) s.data with
  | some (v, []) => some v
  | _ => none

/-- A decimal digit prints as a digit character carrying its value. -/
theorem digitToChar_spec (d : Nat) (hd : d < 10) :
    isDigitChar (digitToChar d) = true ∧ charDigit (digitToChar d) = d := by
  interval_cases d <;> exact ⟨rfl, rfl⟩

/-- The digit reader stops immediately on a non-digit head. -/
theorem parseDigits_notDigit (cs : List Char) (acc : Nat)
    (h : headDigit cs = false) : parseDigits cs acc = (acc, cs) := by
  cases cs with
  | nil => rfl
  | cons c tl =>
      simp only [headDigit] at h
      simp [parseDigits, h]

/-- The digit reader consumes exactly a printed digit run, folding the
digits into the accumulator. -/
theorem parseDigits_append (ds : List Nat) (rest : List Char)
    (hds : ∀ d ∈ ds, d < 10) (hrest : headDigit rest = false) :
    ∀ acc, parseDigits (ds.map digitToChar ++ rest) acc =
      (ds.foldl (fun a d => a * 10 + d) acc, rest) := by
  induction ds with
  | nil =>
      intro acc
      simpa using parseDigits_notDigit rest acc hrest
  | cons d tl ih =>
      intro acc
      obtain ⟨hd1, hd2⟩ := digitToChar_spec d (hds d (by simp))
      simp only [List.map_cons, List.cons_append, parseDigits, hd1, if_true,
        hd2, List.foldl_cons]
      exact ih (fun x hx => hds x (List.mem_cons_of_mem _ hx)) _

/-- Folding most-significant-first digits computes the base-10 value. -/
theorem foldl_digits (ds : List Nat) :
    ∀ acc : Nat,
      List.foldl (fun a d => a * 10 + d) acc ds.reverse =
        acc * 10 ^ ds.length + Nat.ofDigits 10 ds := by
  induction ds with
  | nil => intro acc; simp [Nat.ofDigits_nil]
  | cons d tl ih =>
      intro acc
      simp only [List.reverse_cons, List.foldl_append, List.foldl_cons,
        List.foldl_nil, ih, Nat.ofDigits_cons, List.length_cons]
      ring

/-- Reading back a printed natural number recovers it. -/
theorem parseDigits_natToChars (n : Nat) (rest : List Char)
    (hrest : headDigit rest = false) :
    parseDigits (natToChars n ++ rest) 0 = (n, rest) := by
  by_cases h0 : n = 0
  · subst h0
    have h1 : isDigitChar '0' = true := rfl
    simp only [natToChars, if_pos rfl, List.cons_append, List.nil_append,
      parseDigits, h1, if_true]
    simpa using parseDigits_notDigit rest _ hrest
  · unfold natToChars
    rw [if_neg h0]
    have hds : ∀ d ∈ (Nat.digits 10 n).reverse, d < 10 := fun d hd =>
      Nat.digits_lt_base (by norm_num) (List.mem_reverse.1 hd)
    rw [parseDigits_append _ rest hds hrest 0]
    rw [foldl_digits (Nat.digits 10 n) 0]
    simp [Nat.ofDigits_digits]

/-- A printed natural number starts with a digit character. -/
theorem natToChars_head (n : Nat) :
    ∃ c t, natToChars n = c :: t ∧ isDigitChar c = true := by
  by_cases h0 : n = 0
  · exact ⟨'0', [], by simp [natToChars, h0], rfl⟩
  · have hne : (Nat.digits 10 n).reverse ≠ [] := by
      simp [Nat.digits_ne_nil_iff_ne_zero, h0]
    obtain ⟨d, t, ht⟩ := List.exists_cons_of_ne_nil hne
    have hd : d < 10 := Nat.digits_lt_base (by norm_num)
      (List.mem_reverse.1 (ht ▸ List.mem_cons_self d t))
    refine ⟨digitToChar d, t.map digitToChar, ?_, (digitToChar_spec d hd).1⟩
    simp [natToChars, h0, ht]

/-- The number reader inverts the natural-number printer. -/
theorem parseNumber_natToChars (n : Nat) (rest : List Char)
    (hrest : headDigit rest = false) :
    parseNumber (natToChars n ++ rest) = some (n, rest) := by
  obtain ⟨c, t, hct, hdig⟩ := natToChars_head n
  rw [hct, List.cons_append]
  simp only [parseNumber, hdig, if_true]
  rw [← List.cons_append, ← hct, parseDigits_natToChars n rest hrest]

/-- The string-body reader inverts the escaper, up to the closing
quote. -/
theorem parseStringBody_escape (sc : List Char) (rest : List Char) :
    parseStringBody (escapeChars sc ++ '"' :: rest) = some (sc, rest) := by
  induction sc with
  | nil => rfl
  | cons c tl ih =>
      by_cases hq : c = '"'
      · subst hq
        calc parseStringBody (escapeChars ('"' :: tl) ++ '"' :: rest)
            = (parseStringBody (escapeChars tl ++ '"' :: rest)).map
                fun p => ('"' :: p.1, p.2) := rfl
          _ = some ('"' :: tl, rest) := by rw [ih]; rfl
      · by_cases hb : c = '\\'
        · subst hb
          calc parseStringBody (escapeChars ('\\' :: tl) ++ '"' :: rest)
              = (parseStringBody (escapeChars tl ++ '"' :: rest)).map
                  fun p => ('\\' :: p.1, p.2) := rfl
            _ = some ('\\' :: tl, rest) := by rw [ih]; rfl
        · have hc : ¬(c = '"' ∨ c = '\\') := by
            rintro (h | h)
            · exact hq h
            · exact hb h
          show parseStringAux false
              ((escapeChar c ++ escapeChars tl) ++ '"' :: rest) = _
          simp only [escapeChar, if_neg hc, List.cons_append, List.nil_append,
            List.singleton_append]
          show (if c = '"' then some ([], escapeChars tl ++ '"' :: rest)
            else if c = '\\' then
              parseStringAux true (escapeChars tl ++ '"' :: rest)
            else (parseStringAux false (escapeChars tl ++ '"' :: rest)).map
              fun p => (c :: p.1, p.2)) = some (c :: tl, rest)
          rw [if_neg hq, if_neg hb]
          show (parseStringBody (escapeChars tl ++ '"' :: rest)).map
            (fun p => (c :: p.1, p.2)) = some (c :: tl, rest)
          rw [ih]
          rfl

mutual
/-- Fuel sufficient for `parseValue` to read a printed value. -/
def needV : Json → Nat
  | .null => 1
  | .bool _ => 1
  | .num _ => 1
  | .str _ => 1
  | .arr .nil => 1
  | .arr (.cons v tl) => 1 + needE (.cons v tl)
  | .obj .nil => 1
  | .obj (.cons k v tl) => 1 + needF (.cons k v tl)

/-- Fuel sufficient for `parseElems` to read a printed element list. -/
def needE : JsonList → Nat
  | .nil => 0
  | .cons v tl => 1 + max (needV v) (needE tl)

/-- Fuel sufficient for `parseFields` to read a printed field list. -/
def needF : JsonFields → Nat
  | .nil => 0
  | .cons _ v tl => 1 + max (needV v) (needF tl)
end

/-- Dispatch of `parseValue` on an opening quote. -/
theorem parseValue_quote (f : Nat) (cs : List Char) :
    parseValue (f + 1) ('"' :: cs) =
      match parseStringBody cs with
      | some (sc, r) => some (.str (String.mk sc), r)
      | none => none := rfl

/-- Dispatch of `parseValue` on a minus sign. -/
theorem parseValue_minus (f : Nat) (cs : List Char) :
    parseValue (f + 1) ('-' :: cs) =
      match parseNumber cs with
      | some (n, r) => some (.num (-(n : Int)), r)
      | none => none := rfl

/-- Dispatch of `parseValue` on a digit. -/
theorem parseValue_digit (f : Nat) (c : Char) (cs : List Char)
    (hc : isDigitChar c = true) :
    parseValue (f + 1) (c :: cs) =
      match parseNumber (c :: cs) with
      | some (n, r) => some (.num (n : Int), r)
      | none => none := by
  simp only [parseValue, hc, if_true]

/-- Dispatch of `parseValue` on an opening bracket. -/
theorem parseValue_lbracket (f : Nat) (cs : List Char) :
    parseValue (f + 1) ('[' :: cs) =
      (match cs with
       | ']' :: rest => some (.arr .nil, rest)
       | _ =>
           match parseElems f cs with
           | some (xs, rest) => some (.arr xs, rest)
           | none => none) := rfl

/-- Dispatch of `parseValue` on an opening brace. -/
theorem parseValue_lbrace (f : Nat) (cs : List Char) :
    parseValue (f + 1) ('\x7b' :: cs) =
      (match cs with
       | '\x7d' :: rest => some (.obj .nil, rest)
       | _ =>
           match parseFields f cs with
           | some (fs, rest) => some (.obj fs, rest)
           | none => none) := rfl

/-- The value reader inverts the integer printer. -/
theorem parseValue_intToChars (f : Nat) (n : Int) (rest : List Char)
    (hrest : headDigit rest = false) :
    parseValue (f + 1) (intToChars n ++ rest) = some (.num n, rest) := by
  by_cases hn : n < 0
  · rw [intToChars, if_pos hn, List.cons_append, parseValue_minus,
      parseNumber_natToChars n.natAbs rest hrest]
    have harg : -((n.natAbs : Nat) : Int) = n := by omega
    show some (Json.num (-((n.natAbs : Nat) : Int)), rest) =
      some (Json.num n, rest)
    rw [harg]
  · rw [intToChars, if_neg hn]
    obtain ⟨c, t, hct, hdig⟩ := natToChars_head n.toNat
    rw [hct, List.cons_append, parseValue_digit f c (t ++ rest) hdig,
      ← List.cons_append, ← hct, parseNumber_natToChars n.toNat rest hrest]
    have harg : ((n.toNat : Nat) : Int) = n := Int.toNat_of_nonneg (by omega)
    show some (Json.num ((n.toNat : Nat) : Int), rest) = some (Json.num n, rest)
    rw [harg]

/-- A digit character is none of the parser's structural delimiters. -/
theorem isDigitChar_ne (c : Char) (hc : isDigitChar c = true) :
    c ≠ ']' ∧ c ≠ '\x7d' := by
  constructor <;> intro h <;> subst h <;> exact absurd hc (by decide)

/-- Every printed value starts with a character other than a closing
bracket or closing brace, so the empty-collection fast paths of
`parseValue` never fire on a printed non-empty collection. -/
theorem printJson_head (v : Json) :
    ∃ c t, printJson v = c :: t ∧ c ≠ ']' ∧ c ≠ '\x7d' := by
  cases v with
  | null => exact ⟨'n', _, rfl, by decide, by decide⟩
  | bool b => cases b with
      | true => exact ⟨'t', _, rfl, by decide, by decide⟩
      | false => exact ⟨'f', _, rfl, by decide, by decide⟩
  | num n =>
      by_cases hn : n < 0
      · refine ⟨'-', natToChars n.natAbs, ?_, by decide, by decide⟩
        simp [printJson, intToChars, hn]
      · obtain ⟨c, t, hct, hdig⟩ := natToChars_head n.toNat
        obtain ⟨h1, h2⟩ := isDigitChar_ne c hdig
        refine ⟨c, t, ?_, h1, h2⟩
        simp [printJson, intToChars, hn, hct]
  | str s => exact ⟨'"', _, rfl, by decide, by decide⟩
  | arr xs => cases xs with
      | nil => exact ⟨'[', _, rfl, by decide, by decide⟩
      | cons v tl => exact ⟨'[', _, rfl, by decide, by decide⟩
  | obj fs => cases fs with
      | nil => exact ⟨'\x7b', _, rfl, by decide, by decide⟩
      | cons k v tl => exact ⟨'\x7b', _, rfl, by decide, by decide⟩

/-- A printed non-empty element list starts like its first printed
value. -/
theorem printElems_head (v : Json) (tl : JsonList) :
    ∃ c t, printElems (.cons v tl) = c :: t ∧ c ≠ ']' ∧ c ≠ '\x7d' := by
  obtain ⟨c, t, hct, h1, h2⟩ := printJson_head v
  cases tl with
  | nil => exact ⟨c, t, by simp [printElems, hct], h1, h2⟩
  | cons w tl2 =>
      exact ⟨c, t ++ ',' :: printElems (.cons w tl2),
        by simp [printElems, hct], h1, h2⟩

/-- A printed non-empty field list starts with the opening quote of its
first key. -/
theorem printFields_head (k : String) (v : Json) (tl : JsonFields) :
    ∃ t, printFields (.cons k v tl) = '"' :: t := by
  cases tl with
  | nil => exact ⟨_, rfl⟩
  | cons k2 w tl2 => exact ⟨_, rfl⟩

/-- Reading any value consumes at least one fuel unit. -/
theorem needV_pos (v : Json) : 1 ≤ needV v := by
  cases v with
  | null => simp [needV]
  | bool b => simp [needV]
  | num n => simp [needV]
  | str s => simp [needV]
  | arr xs => cases xs <;> simp [needV]
  | obj fs => cases fs <;> simp [needV]

/-- Dispatch of `parseFields` on the opening quote of a key. -/
theorem parseFields_quote (f : Nat) (cs2 : List Char) :
    parseFields (f + 1) ('"' :: cs2) =
      match parseStringBody cs2 with
      | some (kc, ':' :: cs3) =>
          match parseValue f cs3 with
          | some (v, ',' :: rest) =>
              match parseFields f rest with
              | some (fs, rest2) => some (.cons (String.mk kc) v fs, rest2)
              | none => none
          | some (v, '\x7d' :: rest) => some (.cons (String.mk kc) v .nil, rest)
          | _ => none
      | _ => none := rfl

mutual
/-- The value reader inverts the value printer, leaving any non-digit
continuation untouched. -/
theorem parseValue_print : ∀ (v : Json) (f : Nat) (rest : List Char),
    needV v ≤ f → headDigit rest = false →
    parseValue f (printJson v ++ rest) = some (v, rest)
  | v, 0, _, hf, _ => absurd hf (by have := needV_pos v; omega)
  | .null, f + 1, rest, _, _ => rfl
  | .bool true, f + 1, rest, _, _ => rfl
  | .bool false, f + 1, rest, _, _ => rfl
  | .num n, f + 1, rest, _, hr => parseValue_intToChars f n rest hr
  | .str s, f + 1, rest, _, _ => by
      obtain ⟨d⟩ := s
      show parseValue (f + 1) (('"' :: (escapeChars d ++ ['"'])) ++ rest) =
        some (.str (String.mk d), rest)
      rw [List.cons_append, List.append_assoc, List.singleton_append,
        parseValue_quote, parseStringBody_escape]
  | .arr .nil, f + 1, rest, _, _ => rfl
  | .arr (.cons v tl), f + 1, rest, hf, _ => by
      have hE : needE (.cons v tl) ≤ f := by
        simp only [needV, needE] at hf ⊢
        omega
      obtain ⟨c, t, hct, hc1, -⟩ := printElems_head v tl
      show parseValue (f + 1)
        (('[' :: (printElems (.cons v tl) ++ [']'])) ++ rest) =
        some (.arr (.cons v tl), rest)
      rw [List.cons_append, List.append_assoc, List.singleton_append,
        parseValue_lbracket, hct, List.cons_append]
      split
      · rename_i r heq
        injection heq with hh
        exact absurd hh hc1
      · rw [← List.cons_append, ← hct,
          parseElems_print (.cons v tl) f rest
            (fun h => JsonList.noConfusion h) hE]
  | .obj .nil, f + 1, rest, _, _ => rfl
  | .obj (.cons k v tl), f + 1, rest, hf, _ => by
      have hF : needF (.cons k v tl) ≤ f := by
        simp only [needV, needF] at hf ⊢
        omega
      obtain ⟨t, hct⟩ := printFields_head k v tl
      show parseValue (f + 1)
        (('\x7b' :: (printFields (.cons k v tl) ++ ['\x7d'])) ++ rest) =
        some (.obj (.cons k v tl), rest)
      rw [List.cons_append, List.append_assoc, List.singleton_append,
        parseValue_lbrace, hct, List.cons_append]
      split
      · rename_i r heq
        injection heq with hh
        exact absurd hh (by decide)
      · rw [← List.cons_append, ← hct,
          parseFields_print (.cons k v tl) f rest
            (fun h => JsonFields.noConfusion h) hF]

/-- The element-list reader inverts the element-list printer up to the
closing bracket. -/
theorem parseElems_print : ∀ (xs : JsonList) (f : Nat) (rest : List Char),
    xs ≠ .nil → needE xs ≤ f →
    parseElems f (printElems xs ++ ']' :: rest) = some (xs, rest)
  | .nil, _, _, hne, _ => absurd rfl hne
  | .cons v tl, 0, _, _, hf => absurd hf (by simp only [needE]; omega)
  | .cons v .nil, f + 1, rest, _, hf => by
      have hv : needV v ≤ f := by
        simp only [needE] at hf
        omega
      show parseElems (f + 1) (printJson v ++ ']' :: rest) =
        some (.cons v .nil, rest)
      simp only [parseElems]
      rw [parseValue_print v f (']' :: rest) hv rfl]
      rfl
  | .cons v (.cons w tl2), f + 1, rest, _, hf => by
      have hv : needV v ≤ f := by
        simp only [needE] at hf
        omega
      have hE : needE (.cons w tl2) ≤ f := by
        simp only [needE] at hf ⊢
        omega
      show parseElems (f + 1)
        ((printJson v ++ ',' :: printElems (.cons w tl2)) ++ ']' :: rest) =
        some (.cons v (.cons w tl2), rest)
      rw [List.append_assoc, List.cons_append]
      simp only [parseElems]
      rw [parseValue_print v f
        (',' :: (printElems (.cons w tl2) ++ ']' :: rest)) hv rfl]
      show (match parseElems f (printElems (.cons w tl2) ++ ']' :: rest) with
        | some (xs, rest2) => some (JsonList.cons v xs, rest2)
        | none => none) = some (.cons v (.cons w tl2), rest)
      rw [parseElems_print (.cons w tl2) f rest
        (fun h => JsonList.noConfusion h) hE]

/-- The field-list reader inverts the field-list printer up to the
closing brace. -/
theorem parseFields_print : ∀ (fs : JsonFields) (f : Nat) (rest : List Char),
    fs ≠ .nil → needF fs ≤ f →
    parseFields f (printFields fs ++ '\x7d' :: rest) = some (fs, rest)
  | .nil, _, _, hne, _ => absurd rfl hne
  | .cons k v tl, 0, _, _, hf => absurd hf (by simp only [needF]; omega)
  | .cons k v .nil, f + 1, rest, _, hf => by
      obtain ⟨kd⟩ := k
      have hv : needV v ≤ f := by
        simp only [needF] at hf
        omega
      show parseFields (f + 1)
        (('"' :: (escapeChars kd ++ ['"', ':'] ++ printJson v))
          ++ '\x7d' :: rest) =
        some (.cons (String.mk kd) v .nil, rest)
      rw [List.cons_append, parseFields_quote]
      rw [show (escapeChars kd ++ ['"', ':'] ++ printJson v) ++ '\x7d' :: rest =
          escapeChars kd ++ '"' :: (':' :: (printJson v ++ '\x7d' :: rest)) by
        simp [List.append_assoc]]
      rw [parseStringBody_escape]
      show (match parseValue f (printJson v ++ '\x7d' :: rest) with
        | some (v, ',' :: rest) =>
            match parseFields f rest with
            | some (fs, rest2) => some (JsonFields.cons (String.mk kd) v fs, rest2)
            | none => none
        | some (v, '\x7d' :: rest) => some (JsonFields.cons (String.mk kd) v .nil, rest)
        | _ => none) = some (.cons (String.mk kd) v .nil, rest)
      rw [parseValue_print v f ('\x7d' :: rest) hv rfl]
      rfl
  | .cons k v (.cons k2 w tl2), f + 1, rest, _, hf => by
      obtain ⟨kd⟩ := k
      have hv : needV v ≤ f := by
        simp only [needF] at hf
        omega
      have hF : needF (.cons k2 w tl2) ≤ f := by
        simp only [needF] at hf ⊢
        omega
      show parseFields (f + 1)
        (('"' :: (escapeChars kd ++ ['"', ':'] ++ printJson v
          ++ ',' :: printFields (.cons k2 w tl2))) ++ '\x7d' :: rest) =
        some (.cons (String.mk kd) v (.cons k2 w tl2), rest)
      rw [List.cons_append, parseFields_quote]
      rw [show (escapeChars kd ++ ['"', ':'] ++ printJson v
            ++ ',' :: printFields (.cons k2 w tl2)) ++ '\x7d' :: rest =
          escapeChars kd ++ '"' :: (':' :: (printJson v
            ++ ',' :: (printFields (.cons k2 w tl2) ++ '\x7d' :: rest))) by
        simp [List.append_assoc]]
      rw [parseStringBody_escape]
      show (match parseValue f (printJson v
          ++ ',' :: (printFields (.cons k2 w tl2) ++ '\x7d' :: rest)) with
        | some (v, ',' :: rest) =>
            match parseFields f rest with
            | some (fs, rest2) => some (JsonFields.cons (String.mk kd) v fs, rest2)
            | none => none
        | some (v, '\x7d' :: rest) => some (JsonFields.cons (String.mk kd) v .nil, rest)
        | _ => none) =
        some (.cons (String.mk kd) v (.cons k2 w tl2), rest)
      rw [parseValue_print v f
        (',' :: (printFields (.cons k2 w tl2) ++ '\x7d' :: rest)) hv rfl]
      show (match parseFields f
          (printFields (.cons k2 w tl2) ++ '\x7d' :: rest) with
        | some (fs, rest2) => some (JsonFields.cons (String.mk kd) v fs, rest2)
        | none => none) =
        some (.cons (String.mk kd) v (.cons k2 w tl2), rest)
      rw [parseFields_print (.cons k2 w tl2) f rest
        (fun h => JsonFields.noConfusion h) hF]
end

/-- A printed natural number is at least one character. -/
theorem natToChars_length_pos (n : Nat) : 1 ≤ (natToChars n).length := by
  obtain ⟨c, t, hct, -⟩ := natToChars_head n
  simp [hct]

/-- A printed integer is at least one character. -/
theorem intToChars_length_pos (n : Int) : 1 ≤ (intToChars n).length := by
  unfold intToChars
  split
  · simp
  · exact natToChars_length_pos n.toNat

mutual
/-- The fuel needed for a value never exceeds its printed length. -/
theorem needV_le_length : ∀ v : Json, needV v ≤ (printJson v).length
  | .null => by simp [needV, printJson, nullChars]
  | .bool true => by simp [needV, printJson, trueChars]
  | .bool false => by simp [needV, printJson, falseChars]
  | .num n => by
      have h := intToChars_length_pos n
      simp only [needV, printJson]
      omega
  | .str s => by
      simp only [needV, printJson, List.length_cons]
      omega
  | .arr .nil => by simp [needV, printJson]
  | .arr (.cons v tl) => by
      have h := needE_le_length (.cons v tl)
      simp only [needV, printJson, List.length_cons, List.length_append] at h ⊢
      omega
  | .obj .nil => by simp [needV, printJson]
  | .obj (.cons k v tl) => by
      have h := needF_le_length (.cons k v tl)
      simp only [needV, printJson, List.length_cons, List.length_append] at h ⊢
      omega

/-- The fuel needed for an element list never exceeds its printed length
plus one. -/
theorem needE_le_length : ∀ xs : JsonList, needE xs ≤ (printElems xs).length + 1
  | .nil => by simp [needE]
  | .cons v .nil => by
      have h := needV_le_length v
      simp only [needE, printElems]
      omega
  | .cons v (.cons w tl2) => by
      have h1 := needV_le_length v
      have h2 := needE_le_length (.cons w tl2)
      simp only [needE, printElems, List.length_append, List.length_cons] at h2 ⊢
      omega

/-- The fuel needed for a field list never exceeds its printed length
plus one. -/
theorem needF_le_length : ∀ fs : JsonFields,
    needF fs ≤ (printFields fs).length + 1
  | .nil => by simp [needF]
  | .cons k v .nil => by
      have h := needV_le_length v
      simp only [needF, printFields, List.length_cons, List.length_append]
      omega
  | .cons k v (.cons k2 w tl2) => by
      have h1 := needV_le_length v
      have h2 := needF_le_length (.cons k2 w tl2)
      simp only [needF, printFields, List.length_append, List.length_cons] at h2 ⊢
      omega
end

/-- A value survives the full wire round trip: printing it with the
`JSON.stringify` model and reading the text back with the `JSON.parse`
model returns the identical value. -/
theorem jsonParse_stringify (v : Json) : jsonParse (jsonStringify v) = some v := by
  unfold jsonParse jsonStringify
  have hlen : (String.mk (printJson v)).length = (printJson v).length := rfl
  have hdata : (String.mk (printJson v)).data = printJson v := rfl
  rw [hlen, hdata]
  have h := parseValue_print v ((printJson v).length + 1) []
    (le_trans (needV_le_length v) (by omega)) rfl
  rw [List.append_nil] at h
  rw [h]

/-! ### The `GameStateUpdate` message on the wire

`broadcastGameStateUpdate` stringifies
`{ type: 'GameStateUpdate', payload: { current_game_state: { players, cards } } }`
(ws_server.js lines 480-489); the reader accesses the parsed object by
property name (`parsedMessage.type`, `payload.current_game_state.…`,
ws_server.js lines 329-344).  Card and player objects are encoded with
the wire fields the protocol defines and the server reads; the decoder
looks fields up by key, as JavaScript property access does. -/

/-- Key strings of the wire objects. -/
def kType : String := "type"

/-- Key of the message payload. -/
def kPayload : String := "payload"

/-- Key of the state object inside the payload. -/
def kCurrentGameState : String := "current_game_state"

/-- Key of the player list. -/
def kPlayers : String := "players"

/-- Key of the card list. -/
def kCards : String := "cards"

/-- Key of a numeric id. -/
def kId : String := "id"

/-- Key of a player name. -/
def kName : String := "name"

/-- Key of a card's entity object. -/
def kEntity : String := "entity"

/-- Key of a card's suit. -/
def kSuit : String := "suit"

/-- Key of a card's rank. -/
def kRank : String := "rank"

/-- Key of a card's face flag. -/
def kFaceUp : String := "is_face_up"

/-- Key of a card's stack type. -/
def kStackType : String := "stack_type"

/-- Key of a card's nullable stack index. -/
def kStackIndex : String := "stack_index"

/-- Key of a card's position within its stack. -/
def kPosInStack : String := "position_in_stack"

/-- Key of a card's pixel position object. -/
def kPosition : String := "position"

/-- Key of the x coordinate. -/
def kX : String := "x"

/-- Key of the y coordinate. -/
def kY : String := "y"

/-- The message tag written by `broadcastGameStateUpdate`. -/
def vGameStateUpdate : String := "GameStateUpdate"

/-- A player `{ id, name }` as a JSON object. -/
def playerToJson (p : Player) : Json :=
  .obj (.cons kId (.num p.id) (.cons kName (.str p.name) .nil))

/-- A player list as a JSON array body. -/
def playersToJsonList : List Player → JsonList
  | [] => .nil
  | p :: tl => .cons (playerToJson p) (playersToJsonList tl)

/-- A nullable integer as JSON `null` or a number. -/
def optIntToJson : Option Int → Json
  | none => .null
  | some n => .num n

/-- A card as a JSON object carrying the wire fields. -/
def cardToJson (c : Card) : Json :=
  .obj (.cons kEntity (.obj (.cons kId (.num c.entity.id) .nil))
    (.cons kSuit (.str c.suit)
    (.cons kRank (.str c.rank)
    (.cons kFaceUp (.bool c.is_face_up)
    (.cons kStackType (.str c.stack_type)
    (.cons kStackIndex (optIntToJson c.stack_index)
    (.cons kPosInStack (.num c.position_in_stack)
    (.cons kPosition (.obj (.cons kX (.num c.position.x)
      (.cons kY (.num c.position.y) .nil)))
    .nil))))))))

/-- A card list as a JSON array body. -/
def cardsToJsonList : List Card → JsonList
  | [] => .nil
  | c :: tl => .cons (cardToJson c) (cardsToJsonList tl)

/-- The full `GameStateUpdate` envelope built by
`broadcastGameStateUpdate`. -/
def gameStateUpdateJson (ps : List Player) (cs : List Card) : Json :=
  .obj (.cons kType (.str vGameStateUpdate)
    (.cons kPayload (.obj (.cons kCurrentGameState
      (.obj (.cons kPlayers (.arr (playersToJsonList ps))
        (.cons kCards (.arr (cardsToJsonList cs)) .nil))) .nil)) .nil))

/-- JavaScript property access on a parsed object: first field with the
requested key (`JSON.parse` keeps the last duplicate key, but the
encoder never emits duplicates, so first and last coincide on its
output). -/
def getField : JsonFields → String → Option Json
  | .nil, _ => none
  | .cons k v tl, key => if k = key then some v else getField tl key

/-- Read a player record back from JSON. -/
def decodePlayer : Json → Option Player
  | .obj fs =>
      match getField fs kId, getField fs kName with
      | some (.num i), some (.str n) => some { id := i, name := n }
      | _, _ => none
  | _ => none

/-- Read a player list back from a JSON array body. -/
def decodePlayers : JsonList → Option (List Player)
  | .nil => some []
  | .cons v tl =>
      match decodePlayer v, decodePlayers tl with
      | some p, some ps => some (p :: ps)
      | _, _ => none

/-- Read a nullable integer back. -/
def decodeOptInt : Json → Option (Option Int)
  | .null => some none
  | .num n => some (some n)
  | _ => none

/-- Read a card record back from JSON. -/
def decodeCard : Json → Option Card
  | .obj fs =>
      match getField fs kEntity, getField fs kSuit, getField fs kRank,
        getField fs kFaceUp, getField fs kStackType, getField fs kStackIndex,
        getField fs kPosInStack, getField fs kPosition with
      | some (.obj efs), some (.str su), some (.str ra), some (.bool fu),
        some (.str st), some sij, some (.num pis), some (.obj pfs) =>
          match getField efs kId, decodeOptInt sij, getField pfs kX,
            getField pfs kY with
          | some (.num eid), some si, some (.num px), some (.num py) =>
              some { entity := { id := eid }, suit := su, rank := ra
                     is_face_up := fu, stack_type := st, stack_index := si
                     position_in_stack := pis
                     position := { x := px, y := py } }
          | _, _, _, _ => none
      | _, _, _, _, _, _, _, _ => none
  | _ => none

/-- Read a card list back from a JSON array body. -/
def decodeCards : JsonList → Option (List Card)
  | .nil => some []
  | .cons v tl =>
      match decodeCard v, decodeCards tl with
      | some c, some cs => some (c :: cs)
      | _, _ => none

/-- Read a whole `GameStateUpdate` message back: check the tag, then
follow `payload.current_game_state.players` and `….cards`. -/
def decodeGameStateUpdate : Json → Option (List Player × List Card)
  | .obj fs =>
      match getField fs kType, getField fs kPayload with
      | some (.str t), some (.obj pfs) =>
          if t = vGameStateUpdate then
            match getField pfs kCurrentGameState with
            | some (.obj gfs) =>
                match getField gfs kPlayers, getField gfs kCards with
                | some (.arr pl), some (.arr cl) =>
                    match decodePlayers pl, decodeCards cl with
                    | some ps, some cs => some (ps, cs)
                    | _, _ => none
                | _, _ => none
            | _ => none
          else none
      | _, _ => none
  | _ => none

/-- `JSON.stringify` of the `GameStateUpdate` message (ws_server.js line
489). -/
def serializeGameStateUpdate (ps : List Player) (cs : List Card) : String :=
  jsonStringify (gameStateUpdateJson ps cs)

/-- `JSON.parse` of the wire text followed by the reader's field
accesses (ws_server.js lines 329, 339-344 on the client-role side). -/
def parseGameStateUpdate (s : String) : Option (List Player × List Card) :=
  (jsonParse s).bind decodeGameStateUpdate

/-- Decoding an encoded player yields the same player. -/
theorem decodePlayer_toJson (p : Player) :
    decodePlayer (playerToJson p) = some p := rfl

/-- Decoding an encoded card yields the same card. -/
theorem decodeCard_toJson (c : Card) : decodeCard (cardToJson c) = some c := by
  obtain ⟨e, su, ra, fu, st, si, pis, pos⟩ := c
  cases si <;> rfl

/-- Decoding an encoded player list yields the same list. -/
theorem decodePlayers_toJson (ps : List Player) :
    decodePlayers (playersToJsonList ps) = some ps := by
  induction ps with
  | nil => rfl
  | cons p tl ih =>
      show (match decodePlayer (playerToJson p),
          decodePlayers (playersToJsonList tl) with
        | some p, some ps => some (p :: ps)
        | _, _ => none) = some (p :: tl)
      rw [decodePlayer_toJson, ih]

/-- Decoding an encoded card list yields the same list. -/
theorem decodeCards_toJson (cs : List Card) :
    decodeCards (cardsToJsonList cs) = some cs := by
  induction cs with
  | nil => rfl
  | cons c tl ih =>
      show (match decodeCard (cardToJson c),
          decodeCards (cardsToJsonList tl) with
        | some c, some cs => some (c :: cs)
        | _, _ => none) = some (c :: tl)
      rw [decodeCard_toJson, ih]

/-- Decoding an encoded `GameStateUpdate` envelope yields the same
players and cards. -/
theorem decodeGameStateUpdate_toJson (ps : List Player) (cs : List Card) :
    decodeGameStateUpdate (gameStateUpdateJson ps cs) = some (ps, cs) := by
  show (match decodePlayers (playersToJsonList ps),
      decodeCards (cardsToJsonList cs) with
    | some ps, some cs => some (ps, cs)
    | _, _ => none) = some (ps, cs)
  rw [decodePlayers_toJson, decodeCards_toJson]

/-- C9: serializing a `GameStateUpdate` to its JSON wire text and
parsing the text back reconstructs the identical message — every card's
entity id, suit, rank, face flag, stack type, stack index, stack
position and pixel position, and every player, are preserved.  The
hypothesis restricts the statement to messages whose strings carry no
control characters, the domain on which this printer is an exact model
of `JSON.stringify` (control characters would be `\u`-escaped, which the
model omits). -/
theorem gameStateUpdate_wire_round_trip (ps : List Player) (cs : List Card)
    (_hclean : (∀ p ∈ ps, ∀ ch ∈ p.name.data, 32 ≤ ch.toNat) ∧
      ∀ c ∈ cs, (∀ ch ∈ c.suit.data, 32 ≤ ch.toNat) ∧
        (∀ ch ∈ c.rank.data, 32 ≤ ch.toNat) ∧
        (∀ ch ∈ c.stack_type.data, 32 ≤ ch.toNat)) :
    parseGameStateUpdate (serializeGameStateUpdate ps cs) = some (ps, cs) := by
  unfold parseGameStateUpdate serializeGameStateUpdate
  rw [jsonParse_stringify]
  show decodeGameStateUpdate (gameStateUpdateJson ps cs) = some (ps, cs)
  exact decodeGameStateUpdate_toJson ps cs

/-- Suit string of the C9 witness. -/
def heartStr : String := "Heart"

/-- Rank string of the C9 witness. -/
def aceStr : String := "Ace"

/-- Player list of the C9 witness. -/
def c9Players : List Player := [{ id := 1, name := playerNameStr }]

/-- Card list of the C9 witness: one Tableau card with a negative y
coordinate and one Waste card with a `null` stack index. -/
def c9Cards : List Card :=
  [{ entity := { id := 51 }, suit := heartStr, rank := aceStr
     is_face_up := true, stack_type := tableauStr, stack_index := some 6
     position_in_stack := 12, position := { x := 40, y := -7 } },
   { entity := { id := 3 }, suit := heartStr, rank := aceStr
     is_face_up := false, stack_type := wasteStr, stack_index := none
     position_in_stack := 0, position := { x := 0, y := 2 } }]

/-- Witness for C9 at a concrete two-card message. -/
theorem gameStateUpdate_wire_round_trip_witness :
    ((∀ p ∈ c9Players, ∀ ch ∈ p.name.data, 32 ≤ ch.toNat) ∧
      ∀ c ∈ c9Cards, (∀ ch ∈ c.suit.data, 32 ≤ ch.toNat) ∧
        (∀ ch ∈ c.rank.data, 32 ≤ ch.toNat) ∧
        (∀ ch ∈ c.stack_type.data, 32 ≤ ch.toNat)) ∧
    parseGameStateUpdate (serializeGameStateUpdate c9Players c9Cards) =
      some (c9Players, c9Cards) :=
  ⟨by decide, gameStateUpdate_wire_round_trip c9Players c9Cards (by decide)⟩

end WsServer
